import Mathlib

/-!
Verification of the real-time food order fulfillment system
(`src/kitchen_system.py`) against its natural-language specification.

The Python code is shallowly embedded: mutable object state becomes a
`SysState` record threaded through pure functions, `time.time()` becomes an
injected clock `c : ℕ → ℚ` sampled at an explicit counter (one sample per
`time.time()` call, in source order), Python floats become `ℚ`, Python ints
become `Int`, and the `orders` dict becomes an association list with
first-match lookup, in-place overwrite and key-filtering deletion.
-/

namespace Kitchen

/-- Food storage temperature requirements (`Temperature` enum). -/
inductive Temperature where
  | hot
  | cold
  | room
deriving DecidableEq, Repr

/-- The `.value` string of a `Temperature` member. -/
def Temperature.value : Temperature → String
  | .hot => "hot"
  | .cold => "cold"
  | .room => "room"

/-- Kinds of kitchen actions (`ActionType` enum). -/
inductive ActionType where
  | place
  | move
  | pickup
  | discard
deriving DecidableEq, Repr

/-- A food order (`FoodOrder` dataclass). -/
structure FoodOrder where
  id : String
  name : String
  temperature : Temperature
  freshness : Int
  placed_at : ℚ
  stored_at : ℚ
  storage_location : String
deriving DecidableEq, Repr

/-- `FoodOrder.is_fresh`: the order is fresh when the elapsed time since
`stored_at` is below the full budget if `storage_location` equals
`temperature.value`, and below half the budget otherwise. -/
def FoodOrder.is_fresh (o : FoodOrder) (current_time : ℚ) : Bool :=
  let elapsed_time := current_time - o.stored_at
  let ideal_freshness : ℚ := (o.freshness : ℚ)
  if o.storage_location = o.temperature.value then
    decide (elapsed_time < ideal_freshness)
  else
    decide (elapsed_time < ideal_freshness / 2)

/-- A ledger record (`KitchenAction` dataclass). -/
structure KitchenAction where
  timestamp : ℚ
  order_id : String
  action_type : ActionType
  target : String
  details : String
deriving DecidableEq, Repr

/-- The mutable state of a `KitchenSystem` object. -/
structure SysState where
  cooler : List FoodOrder
  heater : List FoodOrder
  shelf : List FoodOrder
  orders : List (String × FoodOrder)
  actions : List KitchenAction
  statsPlaced : ℕ
  statsPickedUp : ℕ
  statsDiscarded : ℕ
  statsMoved : ℕ
  clockIdx : ℕ
deriving DecidableEq, Repr

/-- The freshly constructed `KitchenSystem` state. -/
def init : SysState :=
  { cooler := [], heater := [], shelf := [], orders := [], actions := []
    statsPlaced := 0, statsPickedUp := 0, statsDiscarded := 0, statsMoved := 0
    clockIdx := 0 }

/-- One `time.time()` call: read the injected clock at the current counter. -/
def sample (c : ℕ → ℚ) (s : SysState) : ℚ × SysState :=
  (c s.clockIdx, { s with clockIdx := s.clockIdx + 1 })

/-- First-match lookup in the `orders` dict. -/
def dictLookup (d : List (String × FoodOrder)) (k : String) : Option FoodOrder :=
  match d with
  | [] => none
  | (k1, v) :: rest => if k1 = k then some v else dictLookup rest k

/-- Dict assignment `d[k] = v`: overwrite in position when the key exists,
append otherwise. -/
def dictInsert (d : List (String × FoodOrder)) (k : String) (v : FoodOrder) :
    List (String × FoodOrder) :=
  if (dictLookup d k).isSome then
    d.map (fun p => if p.1 = k then (k, v) else p)
  else
    d ++ [(k, v)]

/-- Dict deletion `del d[k]`. -/
def dictErase (d : List (String × FoodOrder)) (k : String) :
    List (String × FoodOrder) :=
  d.filter (fun p => decide (p.1 ≠ k))

/-- `_log_action`: append one record to the ledger (console output dropped). -/
def logAction (s : SysState) (timestamp : ℚ) (order_id : String)
    (action_type : ActionType) (target details : String) : SysState :=
  { s with actions := s.actions ++
      [{ timestamp := timestamp, order_id := order_id,
         action_type := action_type, target := target, details := details }] }

/-- `_try_store_at_ideal_temperature`: insert into the matching zone when it
has room; the stored order carries the updated `storage_location`. -/
def try_store_at_ideal_temperature (s : SysState) (o : FoodOrder) :
    Option FoodOrder × SysState :=
  if o.temperature = Temperature.cold ∧ s.cooler.length < 6 then
    let o1 := { o with storage_location := "cooler" }
    (some o1, { s with cooler := s.cooler ++ [o1] })
  else if o.temperature = Temperature.hot ∧ s.heater.length < 6 then
    let o1 := { o with storage_location := "heater" }
    (some o1, { s with heater := s.heater ++ [o1] })
  else if o.temperature = Temperature.room ∧ s.shelf.length < 12 then
    let o1 := { o with storage_location := "shelf" }
    (some o1, { s with shelf := s.shelf ++ [o1] })
  else
    (none, s)

/-- Pop the first list element satisfying `p`, returning it and the rest
(the `for i, order in enumerate(...)` / `pop(i)` pattern). -/
def extractFirst (p : FoodOrder → Bool) : List FoodOrder →
    Option (FoodOrder × List FoodOrder)
  | [] => none
  | o :: rest =>
    if p o then some (o, rest)
    else
      match extractFirst p rest with
      | some (m, rest1) => some (m, o :: rest1)
      | none => none

/-- `_move_from_shelf_to_cooler`: pop the first shelf order that is COLD while
the cooler has room, append it to the cooler, and log a MOVE at a fresh
timestamp.  `stored_at` is not touched. -/
def move_from_shelf_to_cooler (c : ℕ → ℚ) (s : SysState) : Bool × SysState :=
  match extractFirst
      (fun o => decide (o.temperature = Temperature.cold) &&
        decide (s.cooler.length < 6)) s.shelf with
  | some (m, shelf1) =>
    let m1 := { m with storage_location := "cooler" }
    let s1 := { s with shelf := shelf1, cooler := s.cooler ++ [m1] }
    let ts := sample c s1
    let s2 := logAction ts.2 ts.1 m1.id ActionType.move "cooler"
      ("Moved " ++ m1.name ++ " from shelf to cooler")
    (true, { s2 with statsMoved := s2.statsMoved + 1 })
  | none => (false, s)

/-- `_move_from_shelf_to_heater`: the HOT counterpart of the cooler move. -/
def move_from_shelf_to_heater (c : ℕ → ℚ) (s : SysState) : Bool × SysState :=
  match extractFirst
      (fun o => decide (o.temperature = Temperature.hot) &&
        decide (s.heater.length < 6)) s.shelf with
  | some (m, shelf1) =>
    let m1 := { m with storage_location := "heater" }
    let s1 := { s with shelf := shelf1, heater := s.heater ++ [m1] }
    let ts := sample c s1
    let s2 := logAction ts.2 ts.1 m1.id ActionType.move "heater"
      ("Moved " ++ m1.name ++ " from shelf to heater")
    (true, { s2 with statsMoved := s2.statsMoved + 1 })
  | none => (false, s)

/-- `_try_make_room_and_place`: the elif chain that tries to move a shelf
resident into its ideal zone before using a shelf slot. -/
def try_make_room_and_place (c : ℕ → ℚ) (s : SysState) (o : FoodOrder) :
    Option FoodOrder × SysState :=
  if o.temperature = Temperature.cold ∧ s.cooler.length < 6 then
    let ms := move_from_shelf_to_cooler c s
    if ms.1 ∧ ms.2.shelf.length < 12 then
      let o1 := { o with storage_location := "shelf" }
      (some o1, { ms.2 with shelf := ms.2.shelf ++ [o1] })
    else (none, ms.2)
  else if o.temperature = Temperature.hot ∧ s.heater.length < 6 then
    let ms := move_from_shelf_to_heater c s
    if ms.1 ∧ ms.2.shelf.length < 12 then
      let o1 := { o with storage_location := "shelf" }
      (some o1, { ms.2 with shelf := ms.2.shelf ++ [o1] })
    else (none, ms.2)
  else if s.shelf.length < 12 then
    let o1 := { o with storage_location := "shelf" }
    (some o1, { s with shelf := s.shelf ++ [o1] })
  else
    (none, s)

/-- Python `int(...)` on a rational: truncation toward zero. -/
def truncToZero (q : ℚ) : Int :=
  if 0 ≤ q then ⌊q⌋ else ⌈q⌉

/-- The discard score computed inside `_choose_order_to_discard` for one
shelf candidate: +1000 when not fresh, +500 when the stored location string
differs from the temperature value string, plus the truncated scaled
elapsed-over-budget term at the corresponding rate. -/
def discard_score (o : FoodOrder) (current_time : ℚ) : Int :=
  let expiredPart : Int := if o.is_fresh current_time then 0 else 1000
  let mismatchPart : Int :=
    if o.storage_location = o.temperature.value then 0 else 500
  let elapsed_time := current_time - o.stored_at
  let r : ℚ :=
    if o.storage_location = o.temperature.value then
      elapsed_time / (o.freshness : ℚ)
    else
      elapsed_time * 2 / (o.freshness : ℚ)
  expiredPart + mismatchPart + truncToZero (r * 100)

/-- The scanning loop of `_choose_order_to_discard`: keep the first index
whose score is strictly greater than the best so far (initial best is
`-inf`, so the first candidate always becomes the best). -/
def choose_loop (current_time : ℚ) :
    List FoodOrder → ℕ → Option (ℕ × Int) → Option (ℕ × Int)
  | [], _, best => best
  | o :: rest, i, best =>
    let sc := discard_score o current_time
    let best1 :=
      match best with
      | none => some (i, sc)
      | some (bi, bs) => if bs < sc then some (i, sc) else some (bi, bs)
    choose_loop current_time rest (i + 1) best1

/-- `_choose_order_to_discard`: sample `time.time()` and scan the shelf. -/
def choose_order_to_discard (c : ℕ → ℚ) (s : SysState) :
    Option ℕ × SysState :=
  let ts := sample c s
  ((choose_loop ts.1 ts.2.shelf 0 none).map Prod.fst, ts.2)

/-- Pop the element at a given index (`list.pop(i)`). -/
def popAt : List FoodOrder → ℕ → Option (FoodOrder × List FoodOrder)
  | [], _ => none
  | o :: rest, 0 => some (o, rest)
  | o :: rest, n + 1 =>
    match popAt rest n with
    | some (m, rest1) => some (m, o :: rest1)
    | none => none

/-- `_discard_and_place`: when the shelf is full, discard the chosen victim
(logged at a fresh timestamp) and append the new order to the shelf.  The
victim is not removed from the `orders` dict. -/
def discard_and_place (c : ℕ → ℚ) (s : SysState) (o : FoodOrder) :
    Option FoodOrder × SysState :=
  if 12 ≤ s.shelf.length then
    let is1 := choose_order_to_discard c s
    match is1.1 with
    | some i =>
      match popAt is1.2.shelf i with
      | some (victim, shelf1) =>
        let ts := sample c { is1.2 with shelf := shelf1 }
        let s3 := logAction ts.2 ts.1 victim.id ActionType.discard "shelf"
          ("Discarded " ++ victim.name ++ " to make room")
        let s4 := { s3 with statsDiscarded := s3.statsDiscarded + 1 }
        let o1 := { o with storage_location := "shelf" }
        (some o1, { s4 with shelf := s4.shelf ++ [o1] })
      | none => (none, is1.2)
    | none => (none, is1.2)
  else
    (none, s)

/-- `place_order`: sample the clock once at entry, build the order, and try
the three placement strategies in turn; each success logs PLACE at the entry
timestamp and records the order in the dict. -/
def place_order (c : ℕ → ℚ) (s : SysState) (order_id name : String)
    (temperature : Temperature) (freshness : Int) : Bool × SysState :=
  let ts := sample c s
  let current_time := ts.1
  let order : FoodOrder :=
    { id := order_id, name := name, temperature := temperature,
      freshness := freshness, placed_at := current_time,
      stored_at := current_time, storage_location := "" }
  match try_store_at_ideal_temperature ts.2 order with
  | (some o1, s1) =>
    let s2 := logAction s1 current_time order_id ActionType.place
      o1.storage_location ("Stored " ++ name ++ " at ideal temperature")
    (true, { s2 with
        orders := dictInsert s2.orders order_id o1,
        statsPlaced := s2.statsPlaced + 1 })
  | (none, s1) =>
    match try_make_room_and_place c s1 order with
    | (some o1, s2) =>
      let s3 := logAction s2 current_time order_id ActionType.place
        o1.storage_location ("Stored " ++ name ++ " after making room")
      (true, { s3 with
          orders := dictInsert s3.orders order_id o1,
          statsPlaced := s3.statsPlaced + 1 })
    | (none, s2) =>
      match discard_and_place c s2 order with
      | (some o1, s3) =>
        let s4 := logAction s3 current_time order_id ActionType.place
          o1.storage_location ("Stored " ++ name ++ " after discarding old order")
        (true, { s4 with
            orders := dictInsert s4.orders order_id o1,
            statsPlaced := s4.statsPlaced + 1 })
      | (none, s3) => (false, s3)

/-- `_remove_order_from_storage`: filter the zone named by the order's
`storage_location` by id. -/
def remove_order_from_storage (s : SysState) (o : FoodOrder) : SysState :=
  if o.storage_location = "cooler" then
    { s with cooler := s.cooler.filter (fun x => decide (x.id ≠ o.id)) }
  else if o.storage_location = "heater" then
    { s with heater := s.heater.filter (fun x => decide (x.id ≠ o.id)) }
  else if o.storage_location = "shelf" then
    { s with shelf := s.shelf.filter (fun x => decide (x.id ≠ o.id)) }
  else
    s

/-- `pickup_order`: sample the clock, look the id up, and either discard an
expired order or deliver a fresh one; unknown ids return `none`. -/
def pickup_order (c : ℕ → ℚ) (s : SysState) (order_id : String) :
    Option FoodOrder × SysState :=
  let ts := sample c s
  let current_time := ts.1
  match dictLookup ts.2.orders order_id with
  | none => (none, ts.2)
  | some o =>
    if o.is_fresh current_time then
      let s1 := remove_order_from_storage ts.2 o
      let s2 := logAction s1 current_time order_id ActionType.pickup
        o.storage_location ("Picked up " ++ o.name)
      (some o, { s2 with
          statsPickedUp := s2.statsPickedUp + 1,
          orders := dictErase s2.orders order_id })
    else
      let s1 := remove_order_from_storage ts.2 o
      let s2 := logAction s1 current_time order_id ActionType.discard
        o.storage_location ("Discarded expired " ++ o.name)
      (none, { s2 with
          statsDiscarded := s2.statsDiscarded + 1,
          orders := dictErase s2.orders order_id })

/-- Remove the first occurrence of a value (`list.remove(x)`). -/
def removeFirst (o : FoodOrder) : List FoodOrder → List FoodOrder
  | [] => []
  | x :: rest => if x = o then rest else x :: removeFirst o rest

/-- The cooler sweep loop of `cleanup_expired_orders`.  The membership-guarded
`del self.orders[id]` is written as an unconditional key filter, which is the
same function on association lists. -/
def cleanup_cooler_loop (t : ℚ) : List FoodOrder → SysState → SysState
  | [], s => s
  | o :: rest, s =>
    let s1 := { s with cooler := removeFirst o s.cooler }
    let s2 := logAction s1 t o.id ActionType.discard "cooler"
      ("Auto-discarded expired " ++ o.name)
    let s3 := { s2 with
        statsDiscarded := s2.statsDiscarded + 1,
        orders := dictErase s2.orders o.id }
    cleanup_cooler_loop t rest s3

/-- The heater sweep loop of `cleanup_expired_orders`. -/
def cleanup_heater_loop (t : ℚ) : List FoodOrder → SysState → SysState
  | [], s => s
  | o :: rest, s =>
    let s1 := { s with heater := removeFirst o s.heater }
    let s2 := logAction s1 t o.id ActionType.discard "heater"
      ("Auto-discarded expired " ++ o.name)
    let s3 := { s2 with
        statsDiscarded := s2.statsDiscarded + 1,
        orders := dictErase s2.orders o.id }
    cleanup_heater_loop t rest s3

/-- The shelf sweep loop of `cleanup_expired_orders`. -/
def cleanup_shelf_loop (t : ℚ) : List FoodOrder → SysState → SysState
  | [], s => s
  | o :: rest, s =>
    let s1 := { s with shelf := removeFirst o s.shelf }
    let s2 := logAction s1 t o.id ActionType.discard "shelf"
      ("Auto-discarded expired " ++ o.name)
    let s3 := { s2 with
        statsDiscarded := s2.statsDiscarded + 1,
        orders := dictErase s2.orders o.id }
    cleanup_shelf_loop t rest s3

/-- `cleanup_expired_orders`: one clock sample, then sweep the three zones,
recomputing the expired sublist of each zone just before its loop. -/
def cleanup_expired_orders (c : ℕ → ℚ) (s : SysState) : SysState :=
  let ts := sample c s
  let t := ts.1
  let s0 := ts.2
  let s1 := cleanup_cooler_loop t (s0.cooler.filter (fun o => !o.is_fresh t)) s0
  let s2 := cleanup_heater_loop t (s1.heater.filter (fun o => !o.is_fresh t)) s1
  cleanup_shelf_loop t (s2.shelf.filter (fun o => !o.is_fresh t)) s2

/-- One external call into the kitchen system. -/
inductive Event where
  | place (order_id name : String) (temperature : Temperature) (freshness : Int)
  | pickup (order_id : String)
  | cleanup
deriving DecidableEq, Repr

/-- Execute one event against the state. -/
def step (c : ℕ → ℚ) (s : SysState) : Event → SysState
  | Event.place oid name temp fr => (place_order c s oid name temp fr).2
  | Event.pickup oid => (pickup_order c s oid).2
  | Event.cleanup => cleanup_expired_orders c s

/-- Execute a sequence of events from a given state. -/
def runFrom (c : ℕ → ℚ) (s : SysState) (evs : List Event) : SysState :=
  evs.foldl (step c) s

/-- Execute a sequence of events from the initial state: an execution of the
system is `run c evs` for some clock `c` and call sequence `evs`. -/
def run (c : ℕ → ℚ) (evs : List Event) : SysState :=
  runFrom c init evs

/-- The ids of the `place` calls of an event sequence, in order. -/
def placedIds : List Event → List String
  | [] => []
  | Event.place oid _ _ _ :: rest => oid :: placedIds rest
  | _ :: rest => placedIds rest

/-- A clock is monotone when later samples are at least earlier ones. -/
def Mono (c : ℕ → ℚ) : Prop := ∀ i j : ℕ, i ≤ j → c i ≤ c j

/-- All ids currently stored in some zone. -/
def zoneIds (s : SysState) : List String :=
  (s.cooler ++ s.heater ++ s.shelf).map (fun o => o.id)

/-- The relation that holds between adjacent ledger entries: timestamps are
non-decreasing, except that a capacity DISCARD may immediately precede the
PLACE of the same `place_order` call, whose timestamp (sampled at call entry)
is the smaller one. -/
def LedgerStep (a b : KitchenAction) : Prop :=
  a.timestamp ≤ b.timestamp ∨
    (a.action_type = ActionType.discard ∧ b.action_type = ActionType.place ∧
      b.timestamp ≤ a.timestamp)

/-- The id-level state invariant: zone occupancies respect the capacities,
no id is stored twice, and every stored id was placed. -/
structure InvI (placed : List String) (s : SysState) : Prop where
  coolerCap : s.cooler.length ≤ 6
  heaterCap : s.heater.length ≤ 6
  shelfCap : s.shelf.length ≤ 12
  nodup : (zoneIds s).Nodup
  sub : ∀ i ∈ zoneIds s, i ∈ placed

/-- The clock-level state invariant: every tracked order was stored at or
before the current clock sample, tracked orders never report a storage
location equal to their temperature value string, ledger timestamps are
bounded by the current clock sample, and adjacent ledger entries satisfy
`LedgerStep`. -/
structure InvT (c : ℕ → ℚ) (s : SysState) : Prop where
  ordersTime : ∀ p ∈ s.orders, p.2.stored_at ≤ c s.clockIdx
  ordersLoc : ∀ p ∈ s.orders, p.2.storage_location ≠ p.2.temperature.value
  actsTime : ∀ a ∈ s.actions, a.timestamp ≤ c s.clockIdx
  actsChain : List.Chain' LedgerStep s.actions

/-!  Spec-side definitions, used to compare the code with the specification.
They follow the spec's words, not the source. -/

/-- The zone name that is ideal for a temperature, per the spec's data model
(COOLER matches COLD, HEATER matches HOT, SHELF matches ROOM). -/
def ideal_zone_of : Temperature → String
  | .hot => "heater"
  | .cold => "cooler"
  | .room => "shelf"

/-- Follows the spec's freshness model (spec section 3): `age = t − stored_at`,
`life_remaining = budget − age` when the order sits in its ideal zone and
`budget − 2·age` otherwise; the order is fresh iff this is positive. -/
def spec_life_remaining (o : FoodOrder) (t : ℚ) : ℚ :=
  let age := t - o.stored_at
  if o.storage_location = ideal_zone_of o.temperature then
    (o.freshness : ℚ) - age
  else
    (o.freshness : ℚ) - 2 * age

/-- Follows the words of claim C8: +1000 when not fresh, +500 only when the
ideal temperature is not ROOM, plus 100 times age over budget at the
effective rate (1 for ROOM-ideal candidates, 2 otherwise), truncated. -/
def claim_discard_score (o : FoodOrder) (t : ℚ) : Int :=
  (if spec_life_remaining o t ≤ 0 then 1000 else 0) +
  (if o.temperature = Temperature.room then 0 else 500) +
  truncToZero ((t - o.stored_at) *
    (if o.temperature = Temperature.room then 1 else 2) / (o.freshness : ℚ) * 100)

/-- The discard score the code effectively computes for a shelf resident:
since the location string "shelf" never equals a temperature value string,
every candidate takes the mismatch branch, so the +500 bonus and the doubled
elapsed time apply to every shelf order, ROOM-ideal ones included. -/
def shelf_score (o : FoodOrder) (t : ℚ) : Int :=
  (if o.is_fresh t then 0 else 1000) + 500 +
  truncToZero ((t - o.stored_at) * 2 / (o.freshness : ℚ) * 100)

/-!  Concrete clocks and event sequences used in the evaluation theorems. -/

/-- A constant clock: every `time.time()` call returns 0. -/
def clock0 : ℕ → ℚ := fun _ => 0

/-- A strictly increasing clock: the n-th `time.time()` call returns n. -/
def clockN : ℕ → ℚ := fun n => (n : ℚ)

/-- A constant clock returning 4, used for the move evaluation. -/
def clock4 : ℕ → ℚ := fun _ => 4

/-- Twelve ROOM orders that exactly fill the shelf. -/
def shelfFillEvents : List Event :=
  [Event.place "r0" "R" Temperature.room 300, Event.place "r1" "R" Temperature.room 300,
   Event.place "r2" "R" Temperature.room 300, Event.place "r3" "R" Temperature.room 300,
   Event.place "r4" "R" Temperature.room 300, Event.place "r5" "R" Temperature.room 300,
   Event.place "r6" "R" Temperature.room 300, Event.place "r7" "R" Temperature.room 300,
   Event.place "r8" "R" Temperature.room 300, Event.place "r9" "R" Temperature.room 300,
   Event.place "r10" "R" Temperature.room 300, Event.place "r11" "R" Temperature.room 300]

/-- A full shelf followed by one more ROOM order, forcing a capacity discard. -/
def overflowEvents : List Event :=
  shelfFillEvents ++ [Event.place "rx" "R" Temperature.room 300]

/-- The spec's S4 scenario: six hot orders, a seventh hot order that
overflows to the shelf, a pickup that frees one heater slot, then an eighth
hot order. -/
def s4Events : List Event :=
  [Event.place "h1" "Hot" Temperature.hot 300, Event.place "h2" "Hot" Temperature.hot 300,
   Event.place "h3" "Hot" Temperature.hot 300, Event.place "h4" "Hot" Temperature.hot 300,
   Event.place "h5" "Hot" Temperature.hot 300, Event.place "h6" "Hot" Temperature.hot 300,
   Event.place "h7" "Hot" Temperature.hot 300, Event.pickup "h1",
   Event.place "h8" "Hot" Temperature.hot 300]

/-- Twelve ROOM orders filling the shelf, with the lexicographically largest
id placed first and the smallest second. -/
def c8FillEvents : List Event :=
  [Event.place "zz" "R" Temperature.room 300, Event.place "aa" "R" Temperature.room 300,
   Event.place "m0" "R" Temperature.room 300, Event.place "m1" "R" Temperature.room 300,
   Event.place "m2" "R" Temperature.room 300, Event.place "m3" "R" Temperature.room 300,
   Event.place "m4" "R" Temperature.room 300, Event.place "m5" "R" Temperature.room 300,
   Event.place "m6" "R" Temperature.room 300, Event.place "m7" "R" Temperature.room 300,
   Event.place "m8" "R" Temperature.room 300, Event.place "m9" "R" Temperature.room 300]

/-- A HOT order sitting in the heater since time 0 with a 300 s budget. -/
def hotInHeater : FoodOrder :=
  { id := "o1", name := "Pizza", temperature := Temperature.hot, freshness := 300,
    placed_at := 0, stored_at := 0, storage_location := "heater" }

/-- A COLD order sitting on the shelf since time 0 with a 10 s budget. -/
def coldOnShelf : FoodOrder :=
  { id := "c1", name := "Milk", temperature := Temperature.cold, freshness := 10,
    placed_at := 0, stored_at := 0, storage_location := "shelf" }

/-- A state whose shelf holds exactly `coldOnShelf`, with an empty cooler. -/
def c4Start : SysState :=
  { init with shelf := [coldOnShelf], orders := [("c1", coldOnShelf)] }

theorem clockN_mono : Mono clockN := by
  intro i j h
  exact_mod_cast Nat.cast_le.mpr h

theorem clock0_mono : Mono clock0 := fun _ _ _ => le_refl 0

/-!  List-level helper lemmas. -/

theorem popAt_sublist :
    ∀ (l : List FoodOrder) (i : ℕ) (v : FoodOrder) (l1 : List FoodOrder),
      popAt l i = some (v, l1) → l1.Sublist l := by
  intro l
  induction l with
  | nil => intro i v l1 h; simp [popAt] at h
  | cons o rest ih =>
    intro i v l1 h
    cases i with
    | zero =>
      simp only [popAt, Option.some.injEq, Prod.mk.injEq] at h
      obtain ⟨rfl, rfl⟩ := h
      exact List.sublist_cons_self o rest
    | succ n =>
      simp only [popAt] at h
      rcases hrec : popAt rest n with _ | ⟨m, rest1⟩ <;> rw [hrec] at h
      · exact absurd h (by simp)
      · simp only [Option.some.injEq, Prod.mk.injEq] at h
        obtain ⟨rfl, rfl⟩ := h
        exact List.cons_sublist_cons.mpr (ih n m rest1 hrec)

theorem popAt_length :
    ∀ (l : List FoodOrder) (i : ℕ) (v : FoodOrder) (l1 : List FoodOrder),
      popAt l i = some (v, l1) → l1.length + 1 = l.length := by
  intro l
  induction l with
  | nil => intro i v l1 h; simp [popAt] at h
  | cons o rest ih =>
    intro i v l1 h
    cases i with
    | zero =>
      simp only [popAt, Option.some.injEq, Prod.mk.injEq] at h
      obtain ⟨rfl, rfl⟩ := h
      rfl
    | succ n =>
      simp only [popAt] at h
      rcases hrec : popAt rest n with _ | ⟨m, rest1⟩ <;> rw [hrec] at h
      · exact absurd h (by simp)
      · simp only [Option.some.injEq, Prod.mk.injEq] at h
        obtain ⟨rfl, rfl⟩ := h
        have := ih n m rest1 hrec
        simp only [List.length_cons]
        omega

theorem removeFirst_sublist (o : FoodOrder) :
    ∀ l : List FoodOrder, (removeFirst o l).Sublist l := by
  intro l
  induction l with
  | nil => simp [removeFirst]
  | cons x rest ih =>
    simp only [removeFirst]
    split_ifs
    · exact List.sublist_cons_self x rest
    · exact List.cons_sublist_cons.mpr ih

theorem mem_of_mem_getLastQ {l : List KitchenAction} {x : KitchenAction}
    (h : x ∈ l.getLast?) : x ∈ l := by
  rcases List.mem_getLast?_eq_getLast h with ⟨hne, rfl⟩
  exact List.getLast_mem hne

theorem chain_snoc {l : List KitchenAction} {a : KitchenAction}
    (hl : List.Chain' LedgerStep l) (hx : ∀ x ∈ l, LedgerStep x a) :
    List.Chain' LedgerStep (l ++ [a]) := by
  rw [List.chain'_append]
  refine ⟨hl, List.chain'_singleton a, ?_⟩
  intro x hlast y hy
  simp only [List.head?_cons, Option.mem_def, Option.some.injEq] at hy
  subst hy
  exact hx x (mem_of_mem_getLastQ hlast)

theorem chain_snoc2 {l : List KitchenAction} {a b : KitchenAction}
    (hl : List.Chain' LedgerStep l) (hx : ∀ x ∈ l, LedgerStep x a)
    (hab : LedgerStep a b) : List.Chain' LedgerStep (l ++ [a, b]) := by
  rw [List.chain'_append]
  refine ⟨hl, List.chain'_pair.mpr hab, ?_⟩
  intro x hlast y hy
  simp only [List.head?_cons, Option.mem_def, Option.some.injEq] at hy
  subst hy
  exact hx x (mem_of_mem_getLastQ hlast)

theorem mem_dictInsert {d : List (String × FoodOrder)} {k : String}
    {v : FoodOrder} {p : String × FoodOrder} (h : p ∈ dictInsert d k v) :
    p = (k, v) ∨ p ∈ d := by
  unfold dictInsert at h
  split_ifs at h
  · rcases List.mem_map.mp h with ⟨q, hq, hpq⟩
    by_cases hk : q.1 = k
    · rw [if_pos hk] at hpq; exact Or.inl hpq.symm
    · rw [if_neg hk] at hpq; exact Or.inr (hpq ▸ hq)
  · rcases List.mem_append.mp h with hq | hq
    · exact Or.inr hq
    · simp only [List.mem_singleton] at hq; exact Or.inl hq

theorem mem_dictErase {d : List (String × FoodOrder)} {k : String}
    {p : String × FoodOrder} (h : p ∈ dictErase d k) : p ∈ d :=
  List.mem_of_mem_filter h

theorem dictLookup_mem {d : List (String × FoodOrder)} {k : String}
    {v : FoodOrder} (h : dictLookup d k = some v) : (k, v) ∈ d := by
  induction d with
  | nil => simp [dictLookup] at h
  | cons q rest ih =>
    obtain ⟨k1, w⟩ := q
    simp only [dictLookup] at h
    split_ifs at h with hk
    · obtain rfl := Option.some.injEq .. ▸ h
      subst hk
      exact List.mem_cons_self _ _
    · exact List.mem_cons_of_mem _ (ih h)

/-!  Characterizations of the placement helpers. -/

theorem try_store_cases (s : SysState) (o : FoodOrder) :
    (o.temperature = Temperature.cold ∧ s.cooler.length < 6 ∧
      try_store_at_ideal_temperature s o =
        (some { o with storage_location := "cooler" },
         { s with cooler := s.cooler ++ [{ o with storage_location := "cooler" }] })) ∨
    (o.temperature = Temperature.hot ∧ s.heater.length < 6 ∧
      try_store_at_ideal_temperature s o =
        (some { o with storage_location := "heater" },
         { s with heater := s.heater ++ [{ o with storage_location := "heater" }] })) ∨
    (o.temperature = Temperature.room ∧ s.shelf.length < 12 ∧
      try_store_at_ideal_temperature s o =
        (some { o with storage_location := "shelf" },
         { s with shelf := s.shelf ++ [{ o with storage_location := "shelf" }] })) ∨
    (¬(o.temperature = Temperature.cold ∧ s.cooler.length < 6) ∧
      ¬(o.temperature = Temperature.hot ∧ s.heater.length < 6) ∧
      ¬(o.temperature = Temperature.room ∧ s.shelf.length < 12) ∧
      try_store_at_ideal_temperature s o = (none, s)) := by
  unfold try_store_at_ideal_temperature
  split_ifs with h1 h2 h3
  · exact Or.inl ⟨h1.1, h1.2, rfl⟩
  · exact Or.inr (Or.inl ⟨h2.1, h2.2, rfl⟩)
  · exact Or.inr (Or.inr (Or.inl ⟨h3.1, h3.2, rfl⟩))
  · exact Or.inr (Or.inr (Or.inr ⟨h1, h2, h3, rfl⟩))

theorem make_room_of_full (c : ℕ → ℚ) (s : SysState) (o : FoodOrder)
    (h1 : ¬(o.temperature = Temperature.cold ∧ s.cooler.length < 6))
    (h2 : ¬(o.temperature = Temperature.hot ∧ s.heater.length < 6)) :
    try_make_room_and_place c s o =
      if s.shelf.length < 12 then
        (some { o with storage_location := "shelf" },
         { s with shelf := s.shelf ++ [{ o with storage_location := "shelf" }] })
      else (none, s) := by
  unfold try_make_room_and_place
  rw [if_neg h1, if_neg h2]

theorem discard_and_place_cases (c : ℕ → ℚ) (s : SysState) (o : FoodOrder) :
    (∃ s3, discard_and_place c s o = (none, s3) ∧
      (s3 = s ∨ s3 = { s with clockIdx := s.clockIdx + 1 })) ∨
    (∃ (victim : FoodOrder) (shelf1 : List FoodOrder),
      shelf1.Sublist s.shelf ∧ shelf1.length + 1 = s.shelf.length ∧
      12 ≤ s.shelf.length ∧
      discard_and_place c s o =
        (some { o with storage_location := "shelf" },
         { s with
             shelf := shelf1 ++ [{ o with storage_location := "shelf" }],
             actions := s.actions ++
               [{ timestamp := c (s.clockIdx + 1), order_id := victim.id,
                  action_type := ActionType.discard, target := "shelf",
                  details := "Discarded " ++ victim.name ++ " to make room" }],
             statsDiscarded := s.statsDiscarded + 1,
             clockIdx := s.clockIdx + 2 })) := by
  unfold discard_and_place choose_order_to_discard sample logAction
  dsimp only
  split_ifs with h12
  · rcases Option.eq_none_or_eq_some
        ((choose_loop (c s.clockIdx) s.shelf 0 none).map Prod.fst) with hch | ⟨i, hch⟩ <;>
      rw [hch] <;> dsimp only
    · exact Or.inl ⟨_, rfl, Or.inr rfl⟩
    · rcases Option.eq_none_or_eq_some (popAt s.shelf i) with hpop | ⟨⟨victim, shelf1⟩, hpop⟩ <;>
        rw [hpop] <;> dsimp only
      · exact Or.inl ⟨_, rfl, Or.inr rfl⟩
      · exact Or.inr ⟨victim, shelf1, popAt_sublist _ _ _ _ hpop,
          popAt_length _ _ _ _ hpop, h12, rfl⟩
  · exact Or.inl ⟨_, rfl, Or.inl rfl⟩

/-!  Preservation of the id-level invariant `InvI`. -/

theorem nodup_of_perm_cons {l big : List String} {x : String}
    (hperm : big.Perm (x :: l)) (hx : x ∉ l) (h : l.Nodup) : big.Nodup :=
  hperm.nodup_iff.mpr (List.nodup_cons.mpr ⟨hx, h⟩)

theorem perm_insert_cooler (l1 l2 l3 : List FoodOrder) (x : FoodOrder) :
    ((l1 ++ [x]) ++ l2 ++ l3).Perm (x :: (l1 ++ l2 ++ l3)) :=
  ((List.perm_append_singleton x l1).append_right l2).append_right l3

theorem perm_insert_heater (l1 l2 l3 : List FoodOrder) (x : FoodOrder) :
    (l1 ++ (l2 ++ [x]) ++ l3).Perm (x :: (l1 ++ l2 ++ l3)) := by
  have h1 : (l1 ++ (l2 ++ [x])).Perm (x :: (l1 ++ l2)) :=
    (((List.perm_append_singleton x l2).append_left l1)).trans List.perm_middle
  exact h1.append_right l3

theorem perm_insert_shelf (l1 l2 l3 : List FoodOrder) (x : FoodOrder) :
    (l1 ++ l2 ++ (l3 ++ [x])).Perm (x :: (l1 ++ l2 ++ l3)) :=
  (((List.perm_append_singleton x l3).append_left (l1 ++ l2))).trans List.perm_middle

theorem invI_of_fields {placed : List String} {s2 : SysState}
    (A B C : List FoodOrder)
    (hc : s2.cooler = A) (hh : s2.heater = B) (hs : s2.shelf = C)
    (cap1 : A.length ≤ 6) (cap2 : B.length ≤ 6) (cap3 : C.length ≤ 12)
    (nd : ((A ++ B ++ C).map (fun o => o.id)).Nodup)
    (sub : ∀ i ∈ (A ++ B ++ C).map (fun o => o.id), i ∈ placed) :
    InvI placed s2 := by
  refine ⟨?_, ?_, ?_, ?_, ?_⟩
  · rw [hc]; exact cap1
  · rw [hh]; exact cap2
  · rw [hs]; exact cap3
  · unfold zoneIds; rw [hc, hh, hs]; exact nd
  · unfold zoneIds; rw [hc, hh, hs]; exact sub

theorem invI_sublist {placed : List String} {s s2 : SysState} (h : InvI placed s)
    (hc : s2.cooler.Sublist s.cooler) (hh : s2.heater.Sublist s.heater)
    (hs : s2.shelf.Sublist s.shelf) : InvI placed s2 := by
  have hz : (zoneIds s2).Sublist (zoneIds s) := by
    unfold zoneIds
    exact List.Sublist.map _ ((hc.append hh).append hs)
  exact ⟨le_trans hc.length_le h.coolerCap, le_trans hh.length_le h.heaterCap,
    le_trans hs.length_le h.shelfCap, List.Nodup.sublist hz h.nodup,
    fun i hi => h.sub i (hz.subset hi)⟩

theorem invI_mono {placed placed2 : List String} {s : SysState}
    (h : InvI placed s) (hsub : ∀ x ∈ placed, x ∈ placed2) : InvI placed2 s :=
  ⟨h.coolerCap, h.heaterCap, h.shelfCap, h.nodup,
    fun i hi => hsub i (h.sub i hi)⟩

theorem sub_insert {placed rest : List String} {x : String}
    (hsub : ∀ i ∈ rest, i ∈ placed) :
    ∀ i ∈ x :: rest, i ∈ placed ++ [x] := by
  intro i hi
  rcases List.mem_cons.mp hi with rfl | hi
  · exact List.mem_append_right _ (List.mem_singleton.mpr rfl)
  · exact List.mem_append_left _ (hsub i hi)

theorem invI_place {placed : List String} (c : ℕ → ℚ) (s : SysState)
    (oid name : String) (temp : Temperature) (fr : Int)
    (h : InvI placed s) (hnew : oid ∉ placed) :
    InvI (placed ++ [oid]) (place_order c s oid name temp fr).2 := by
  have hnewz : oid ∉ zoneIds s := fun hx => hnew (h.sub _ hx)
  have hsubP : ∀ i ∈ zoneIds s, i ∈ placed := h.sub
  unfold place_order sample
  dsimp only
  rcases try_store_cases { s with clockIdx := s.clockIdx + 1 }
      { id := oid, name := name, temperature := temp, freshness := fr,
        placed_at := c s.clockIdx, stored_at := c s.clockIdx,
        storage_location := "" } with
    ⟨ht, hlen, heq⟩ | ⟨ht, hlen, heq⟩ | ⟨ht, hlen, heq⟩ | ⟨hg1, hg2, hg3, heq⟩
  · rw [heq]; dsimp only [logAction]
    refine invI_of_fields _ _ _ rfl rfl rfl ?_ h.heaterCap h.shelfCap ?_ ?_
    · have hlen2 : s.cooler.length < 6 := hlen
      simp only [List.length_append, List.length_singleton]
      omega
    · exact nodup_of_perm_cons ((perm_insert_cooler _ _ _ _).map _) hnewz h.nodup
    · intro i hi
      have hm := (((perm_insert_cooler _ _ _ _).map (fun o => o.id)).subset) hi
      exact sub_insert hsubP i hm
  · rw [heq]; dsimp only [logAction]
    refine invI_of_fields _ _ _ rfl rfl rfl h.coolerCap ?_ h.shelfCap ?_ ?_
    · have hlen2 : s.heater.length < 6 := hlen
      simp only [List.length_append, List.length_singleton]
      omega
    · exact nodup_of_perm_cons ((perm_insert_heater _ _ _ _).map _) hnewz h.nodup
    · intro i hi
      have hm := (((perm_insert_heater _ _ _ _).map (fun o => o.id)).subset) hi
      exact sub_insert hsubP i hm
  · rw [heq]; dsimp only [logAction]
    refine invI_of_fields _ _ _ rfl rfl rfl h.coolerCap h.heaterCap ?_ ?_ ?_
    · have hlen2 : s.shelf.length < 12 := hlen
      simp only [List.length_append, List.length_singleton]
      omega
    · exact nodup_of_perm_cons ((perm_insert_shelf _ _ _ _).map _) hnewz h.nodup
    · intro i hi
      have hm := (((perm_insert_shelf _ _ _ _).map (fun o => o.id)).subset) hi
      exact sub_insert hsubP i hm
  · rw [heq]; dsimp only
    rw [make_room_of_full c _ _ hg1 hg2]
    split_ifs with hshelf
    · dsimp only [logAction]
      refine invI_of_fields _ _ _ rfl rfl rfl h.coolerCap h.heaterCap ?_ ?_ ?_
      · have hlen2 : s.shelf.length < 12 := hshelf
        simp only [List.length_append, List.length_singleton]
        omega
      · exact nodup_of_perm_cons ((perm_insert_shelf _ _ _ _).map _) hnewz h.nodup
      · intro i hi
        have hm := (((perm_insert_shelf _ _ _ _).map (fun o => o.id)).subset) hi
        exact sub_insert hsubP i hm
    · dsimp only
      rcases discard_and_place_cases c { s with clockIdx := s.clockIdx + 1 }
          { id := oid, name := name, temperature := temp, freshness := fr,
            placed_at := c s.clockIdx, stored_at := c s.clockIdx,
            storage_location := "" } with
        ⟨s3, heq2, hs3⟩ | ⟨victim, shelf1, hsl, hlen1, h12, heq2⟩
      · rw [heq2]; dsimp only
        have hmono : InvI (placed ++ [oid]) s :=
          invI_mono h (fun x hx => List.mem_append_left _ hx)
        rcases hs3 with rfl | rfl
        · exact invI_sublist hmono (List.Sublist.refl _) (List.Sublist.refl _)
            (List.Sublist.refl _)
        · exact invI_sublist hmono (List.Sublist.refl _) (List.Sublist.refl _)
            (List.Sublist.refl _)
      · rw [heq2]; dsimp only [logAction]
        have hbase : InvI placed
            { s with shelf := shelf1, clockIdx := s.clockIdx + 2 } :=
          invI_sublist h (List.Sublist.refl _) (List.Sublist.refl _) hsl
        refine invI_of_fields _ _ _ rfl rfl rfl h.coolerCap h.heaterCap ?_ ?_ ?_
        · have hlen2 : shelf1.length + 1 = s.shelf.length := hlen1
          have hcap := h.shelfCap
          simp only [List.length_append, List.length_singleton]
          omega
        · have hzs : (zoneIds
              { s with shelf := shelf1, clockIdx := s.clockIdx + 2 }).Sublist
              (zoneIds s) := by
            unfold zoneIds
            exact List.Sublist.map _
              (((List.Sublist.refl _).append (List.Sublist.refl _)).append hsl)
          exact nodup_of_perm_cons ((perm_insert_shelf _ _ _ _).map _)
            (fun hx => hnewz (hzs.subset hx)) hbase.nodup
        · intro i hi
          have hm := (((perm_insert_shelf _ _ _ _).map (fun o => o.id)).subset) hi
          exact sub_insert hbase.sub i hm

theorem remove_storage_sublists (s : SysState) (o : FoodOrder) :
    (remove_order_from_storage s o).cooler.Sublist s.cooler ∧
    (remove_order_from_storage s o).heater.Sublist s.heater ∧
    (remove_order_from_storage s o).shelf.Sublist s.shelf := by
  unfold remove_order_from_storage
  split_ifs <;>
    exact ⟨by first | exact List.filter_sublist _ | exact List.Sublist.refl _,
      by first | exact List.filter_sublist _ | exact List.Sublist.refl _,
      by first | exact List.filter_sublist _ | exact List.Sublist.refl _⟩

theorem invI_pickup {placed : List String} (c : ℕ → ℚ) (s : SysState)
    (oid : String) (h : InvI placed s) :
    InvI placed (pickup_order c s oid).2 := by
  unfold pickup_order sample
  dsimp only
  rcases Option.eq_none_or_eq_some
      (dictLookup ({ s with clockIdx := s.clockIdx + 1 } : SysState).orders oid) with
    hdl | ⟨o, hdl⟩ <;> rw [hdl] <;> dsimp only
  · exact invI_sublist h (List.Sublist.refl _) (List.Sublist.refl _) (List.Sublist.refl _)
  · split_ifs with hfresh <;>
    · obtain ⟨h1, h2, h3⟩ :=
        remove_storage_sublists { s with clockIdx := s.clockIdx + 1 } o
      exact invI_sublist h h1 h2 h3

theorem invI_cleanup_cooler_loop {placed : List String} (t : ℚ) :
    ∀ (exp : List FoodOrder) (s : SysState), InvI placed s →
      InvI placed (cleanup_cooler_loop t exp s) := by
  intro exp
  induction exp with
  | nil => intro s h; exact h
  | cons o rest ih =>
    intro s h
    exact ih _ (invI_sublist h (removeFirst_sublist o s.cooler)
      (List.Sublist.refl _) (List.Sublist.refl _))

theorem invI_cleanup_heater_loop {placed : List String} (t : ℚ) :
    ∀ (exp : List FoodOrder) (s : SysState), InvI placed s →
      InvI placed (cleanup_heater_loop t exp s) := by
  intro exp
  induction exp with
  | nil => intro s h; exact h
  | cons o rest ih =>
    intro s h
    exact ih _ (invI_sublist h (List.Sublist.refl _)
      (removeFirst_sublist o s.heater) (List.Sublist.refl _))

theorem invI_cleanup_shelf_loop {placed : List String} (t : ℚ) :
    ∀ (exp : List FoodOrder) (s : SysState), InvI placed s →
      InvI placed (cleanup_shelf_loop t exp s) := by
  intro exp
  induction exp with
  | nil => intro s h; exact h
  | cons o rest ih =>
    intro s h
    exact ih _ (invI_sublist h (List.Sublist.refl _) (List.Sublist.refl _)
      (removeFirst_sublist o s.shelf))

theorem invI_cleanup {placed : List String} (c : ℕ → ℚ) (s : SysState)
    (h : InvI placed s) : InvI placed (cleanup_expired_orders c s) := by
  unfold cleanup_expired_orders sample
  dsimp only
  apply invI_cleanup_shelf_loop
  apply invI_cleanup_heater_loop
  apply invI_cleanup_cooler_loop
  exact invI_sublist h (List.Sublist.refl _) (List.Sublist.refl _) (List.Sublist.refl _)

theorem invI_init : InvI [] init := by
  refine ⟨?_, ?_, ?_, ?_, ?_⟩ <;> simp [init, zoneIds]

theorem invI_runFrom (c : ℕ → ℚ) :
    ∀ (evs : List Event) (s : SysState) (placed : List String),
      InvI placed s → (placed ++ placedIds evs).Nodup →
      InvI (placed ++ placedIds evs) (runFrom c s evs) := by
  intro evs
  induction evs with
  | nil =>
    intro s placed h _
    simpa [runFrom, placedIds] using h
  | cons e rest ih =>
    intro s placed h hnd
    cases e with
    | place oid name temp fr =>
      have hlist : placed ++ placedIds (Event.place oid name temp fr :: rest) =
          (placed ++ [oid]) ++ placedIds rest := by
        simp [placedIds]
      rw [hlist]
      rw [hlist] at hnd
      have hnotmem : oid ∉ placed := by
        have hnd2 := hnd
        rw [List.append_assoc, List.nodup_append] at hnd2
        intro hmem
        exact hnd2.2.2 hmem (by simp)
      have hstep : runFrom c s (Event.place oid name temp fr :: rest) =
          runFrom c (place_order c s oid name temp fr).2 rest := rfl
      rw [hstep]
      exact ih _ _ (invI_place c s oid name temp fr h hnotmem) hnd
    | pickup oid =>
      have hstep : runFrom c s (Event.pickup oid :: rest) =
          runFrom c (pickup_order c s oid).2 rest := rfl
      rw [show placedIds (Event.pickup oid :: rest) = placedIds rest from rfl] at hnd ⊢
      rw [hstep]
      exact ih _ _ (invI_pickup c s oid h) hnd
    | cleanup =>
      have hstep : runFrom c s (Event.cleanup :: rest) =
          runFrom c (cleanup_expired_orders c s) rest := rfl
      rw [show placedIds (Event.cleanup :: rest) = placedIds rest from rfl] at hnd ⊢
      rw [hstep]
      exact ih _ _ (invI_cleanup c s h) hnd

theorem invI_run (c : ℕ → ℚ) (evs : List Event)
    (hids : (placedIds evs).Nodup) : InvI (placedIds evs) (run c evs) := by
  have hmain := invI_runFrom c evs init [] invI_init (by simpa using hids)
  simpa [run] using hmain

/-!  No MOVE is ever logged: the relocation branches of
`try_make_room_and_place` require the arriving order's ideal zone to have
free space, but the function is only reached after
`try_store_at_ideal_temperature` failed, which for a HOT or COLD order means
that very zone is full. -/

theorem place_countP_move (c : ℕ → ℚ) (s : SysState) (oid name : String)
    (temp : Temperature) (fr : Int) :
    ((place_order c s oid name temp fr).2.actions.countP
      (fun a => a.action_type == ActionType.move)) =
    s.actions.countP (fun a => a.action_type == ActionType.move) := by
  unfold place_order sample
  dsimp only
  rcases try_store_cases { s with clockIdx := s.clockIdx + 1 }
      { id := oid, name := name, temperature := temp, freshness := fr,
        placed_at := c s.clockIdx, stored_at := c s.clockIdx,
        storage_location := "" } with
    ⟨ht, hlen, heq⟩ | ⟨ht, hlen, heq⟩ | ⟨ht, hlen, heq⟩ | ⟨hg1, hg2, hg3, heq⟩
  · rw [heq]; dsimp only [logAction]
    simp [List.countP_append, List.countP_cons]
  · rw [heq]; dsimp only [logAction]
    simp [List.countP_append, List.countP_cons]
  · rw [heq]; dsimp only [logAction]
    simp [List.countP_append, List.countP_cons]
  · rw [heq]; dsimp only
    rw [make_room_of_full c _ _ hg1 hg2]
    split_ifs with hshelf
    · dsimp only [logAction]
      simp [List.countP_append, List.countP_cons]
    · dsimp only
      rcases discard_and_place_cases c { s with clockIdx := s.clockIdx + 1 }
          { id := oid, name := name, temperature := temp, freshness := fr,
            placed_at := c s.clockIdx, stored_at := c s.clockIdx,
            storage_location := "" } with
        ⟨s3, heq2, hs3⟩ | ⟨victim, shelf1, hsl, hlen1, h12, heq2⟩
      · rw [heq2]; dsimp only
        rcases hs3 with rfl | rfl <;> rfl
      · rw [heq2]; dsimp only [logAction]
        simp [List.countP_append, List.countP_cons]

theorem pickup_countP_move (c : ℕ → ℚ) (s : SysState) (oid : String) :
    ((pickup_order c s oid).2.actions.countP
      (fun a => a.action_type == ActionType.move)) =
    s.actions.countP (fun a => a.action_type == ActionType.move) := by
  unfold pickup_order sample
  dsimp only
  rcases Option.eq_none_or_eq_some
      (dictLookup ({ s with clockIdx := s.clockIdx + 1 } : SysState).orders oid) with
    hdl | ⟨o, hdl⟩
  · rw [hdl]
  · rw [hdl]
    dsimp only
    split_ifs with hfresh <;>
    · dsimp only [logAction, remove_order_from_storage]
      split_ifs <;> simp [List.countP_append, List.countP_cons]

theorem cleanup_cooler_loop_countP_move (t : ℚ) :
    ∀ (exp : List FoodOrder) (s : SysState),
      ((cleanup_cooler_loop t exp s).actions.countP
        (fun a => a.action_type == ActionType.move)) =
      s.actions.countP (fun a => a.action_type == ActionType.move) := by
  intro exp
  induction exp with
  | nil => intro s; rfl
  | cons o rest ih =>
    intro s
    rw [cleanup_cooler_loop, ih]
    dsimp only [logAction]
    simp [List.countP_append, List.countP_cons]

theorem cleanup_heater_loop_countP_move (t : ℚ) :
    ∀ (exp : List FoodOrder) (s : SysState),
      ((cleanup_heater_loop t exp s).actions.countP
        (fun a => a.action_type == ActionType.move)) =
      s.actions.countP (fun a => a.action_type == ActionType.move) := by
  intro exp
  induction exp with
  | nil => intro s; rfl
  | cons o rest ih =>
    intro s
    rw [cleanup_heater_loop, ih]
    dsimp only [logAction]
    simp [List.countP_append, List.countP_cons]

theorem cleanup_shelf_loop_countP_move (t : ℚ) :
    ∀ (exp : List FoodOrder) (s : SysState),
      ((cleanup_shelf_loop t exp s).actions.countP
        (fun a => a.action_type == ActionType.move)) =
      s.actions.countP (fun a => a.action_type == ActionType.move) := by
  intro exp
  induction exp with
  | nil => intro s; rfl
  | cons o rest ih =>
    intro s
    rw [cleanup_shelf_loop, ih]
    dsimp only [logAction]
    simp [List.countP_append, List.countP_cons]

theorem cleanup_countP_move (c : ℕ → ℚ) (s : SysState) :
    ((cleanup_expired_orders c s).actions.countP
      (fun a => a.action_type == ActionType.move)) =
    s.actions.countP (fun a => a.action_type == ActionType.move) := by
  unfold cleanup_expired_orders sample
  dsimp only
  rw [cleanup_shelf_loop_countP_move, cleanup_heater_loop_countP_move,
    cleanup_cooler_loop_countP_move]

theorem runFrom_countP_move (c : ℕ → ℚ) :
    ∀ (evs : List Event) (s : SysState),
      ((runFrom c s evs).actions.countP
        (fun a => a.action_type == ActionType.move)) =
      s.actions.countP (fun a => a.action_type == ActionType.move) := by
  intro evs
  induction evs with
  | nil => intro s; rfl
  | cons e rest ih =>
    intro s
    cases e with
    | place oid name temp fr =>
      rw [show runFrom c s (Event.place oid name temp fr :: rest) =
        runFrom c (place_order c s oid name temp fr).2 rest from rfl]
      rw [ih, place_countP_move]
    | pickup oid =>
      rw [show runFrom c s (Event.pickup oid :: rest) =
        runFrom c (pickup_order c s oid).2 rest from rfl]
      rw [ih, pickup_countP_move]
    | cleanup =>
      rw [show runFrom c s (Event.cleanup :: rest) =
        runFrom c (cleanup_expired_orders c s) rest from rfl]
      rw [ih, cleanup_countP_move]

/-!  Preservation of the clock-level invariant `InvT`. -/

theorem shelf_ne_value (temp : Temperature) : "shelf" ≠ temp.value := by
  cases temp <;> simp [Temperature.value]

theorem cooler_ne_cold_value : "cooler" ≠ Temperature.value Temperature.cold := by
  simp [Temperature.value]

theorem heater_ne_hot_value : "heater" ≠ Temperature.value Temperature.hot := by
  simp [Temperature.value]

theorem invT_place (c : ℕ → ℚ) (s : SysState) (oid name : String)
    (temp : Temperature) (fr : Int) (hm : Mono c) (h : InvT c s) :
    InvT c (place_order c s oid name temp fr).2 := by
  have hc1 : c s.clockIdx ≤ c (s.clockIdx + 1) := hm s.clockIdx (s.clockIdx + 1) (Nat.le_succ _)
  unfold place_order sample
  dsimp only
  rcases try_store_cases { s with clockIdx := s.clockIdx + 1 }
      { id := oid, name := name, temperature := temp, freshness := fr,
        placed_at := c s.clockIdx, stored_at := c s.clockIdx,
        storage_location := "" } with
    ⟨ht, hlen, heq⟩ | ⟨ht, hlen, heq⟩ | ⟨ht, hlen, heq⟩ | ⟨hg1, hg2, hg3, heq⟩
  · rw [heq]; dsimp only [logAction]
    refine ⟨?_, ?_, ?_, ?_⟩
    · intro p hp
      rcases mem_dictInsert hp with rfl | hp2
      · exact hc1
      · exact le_trans (h.ordersTime p hp2) hc1
    · intro p hp
      rcases mem_dictInsert hp with rfl | hp2
      · subst ht; exact cooler_ne_cold_value
      · exact h.ordersLoc p hp2
    · intro a ha
      rcases List.mem_append.mp ha with ha2 | ha2
      · exact le_trans (h.actsTime a ha2) hc1
      · simp only [List.mem_singleton] at ha2; subst ha2; exact hc1
    · exact chain_snoc h.actsChain (fun x hx => Or.inl (h.actsTime x hx))
  · rw [heq]; dsimp only [logAction]
    refine ⟨?_, ?_, ?_, ?_⟩
    · intro p hp
      rcases mem_dictInsert hp with rfl | hp2
      · exact hc1
      · exact le_trans (h.ordersTime p hp2) hc1
    · intro p hp
      rcases mem_dictInsert hp with rfl | hp2
      · subst ht; exact heater_ne_hot_value
      · exact h.ordersLoc p hp2
    · intro a ha
      rcases List.mem_append.mp ha with ha2 | ha2
      · exact le_trans (h.actsTime a ha2) hc1
      · simp only [List.mem_singleton] at ha2; subst ha2; exact hc1
    · exact chain_snoc h.actsChain (fun x hx => Or.inl (h.actsTime x hx))
  · rw [heq]; dsimp only [logAction]
    refine ⟨?_, ?_, ?_, ?_⟩
    · intro p hp
      rcases mem_dictInsert hp with rfl | hp2
      · exact hc1
      · exact le_trans (h.ordersTime p hp2) hc1
    · intro p hp
      rcases mem_dictInsert hp with rfl | hp2
      · exact shelf_ne_value temp
      · exact h.ordersLoc p hp2
    · intro a ha
      rcases List.mem_append.mp ha with ha2 | ha2
      · exact le_trans (h.actsTime a ha2) hc1
      · simp only [List.mem_singleton] at ha2; subst ha2; exact hc1
    · exact chain_snoc h.actsChain (fun x hx => Or.inl (h.actsTime x hx))
  · rw [heq]; dsimp only
    rw [make_room_of_full c _ _ hg1 hg2]
    split_ifs with hshelf
    · dsimp only [logAction]
      refine ⟨?_, ?_, ?_, ?_⟩
      · intro p hp
        rcases mem_dictInsert hp with rfl | hp2
        · exact hc1
        · exact le_trans (h.ordersTime p hp2) hc1
      · intro p hp
        rcases mem_dictInsert hp with rfl | hp2
        · exact shelf_ne_value temp
        · exact h.ordersLoc p hp2
      · intro a ha
        rcases List.mem_append.mp ha with ha2 | ha2
        · exact le_trans (h.actsTime a ha2) hc1
        · simp only [List.mem_singleton] at ha2; subst ha2; exact hc1
      · exact chain_snoc h.actsChain (fun x hx => Or.inl (h.actsTime x hx))
    · dsimp only
      rcases discard_and_place_cases c { s with clockIdx := s.clockIdx + 1 }
          { id := oid, name := name, temperature := temp, freshness := fr,
            placed_at := c s.clockIdx, stored_at := c s.clockIdx,
            storage_location := "" } with
        ⟨s3, heq2, hs3⟩ | ⟨victim, shelf1, hsl, hlen1, h12, heq2⟩
      · rw [heq2]; dsimp only
        rcases hs3 with rfl | rfl
        · exact ⟨fun p hp => le_trans (h.ordersTime p hp) hc1, h.ordersLoc,
            fun a ha => le_trans (h.actsTime a ha) hc1, h.actsChain⟩
        · refine ⟨?_, h.ordersLoc, ?_, h.actsChain⟩
          · intro p hp
            exact le_trans (h.ordersTime p hp)
              (hm s.clockIdx (s.clockIdx + 2) (by omega))
          · intro a ha
            exact le_trans (h.actsTime a ha)
              (hm s.clockIdx (s.clockIdx + 2) (by omega))
      · rw [heq2]; dsimp only [logAction]
        have hble : c s.clockIdx ≤ c (s.clockIdx + 1 + 2) :=
          hm s.clockIdx (s.clockIdx + 1 + 2) (by omega)
        have hble2 : c (s.clockIdx + 1 + 1) ≤ c (s.clockIdx + 1 + 2) :=
          hm (s.clockIdx + 1 + 1) (s.clockIdx + 1 + 2) (by omega)
        have hmid : c s.clockIdx ≤ c (s.clockIdx + 1 + 1) :=
          hm s.clockIdx (s.clockIdx + 1 + 1) (by omega)
        refine ⟨?_, ?_, ?_, ?_⟩
        · intro p hp
          rcases mem_dictInsert hp with rfl | hp2
          · exact hble
          · exact le_trans (h.ordersTime p hp2) hble
        · intro p hp
          rcases mem_dictInsert hp with rfl | hp2
          · exact shelf_ne_value temp
          · exact h.ordersLoc p hp2
        · intro a ha
          rcases List.mem_append.mp ha with ha2 | ha2
          · rcases List.mem_append.mp ha2 with ha3 | ha3
            · exact le_trans (h.actsTime a ha3) hble
            · simp only [List.mem_singleton] at ha3; subst ha3; exact hble2
          · simp only [List.mem_singleton] at ha2; subst ha2; exact hble
        · refine chain_snoc (chain_snoc h.actsChain ?_) ?_
          · intro x hx
            exact Or.inl (le_trans (h.actsTime x hx) hmid)
          · intro x hx
            rcases List.mem_append.mp hx with hx2 | hx2
            · exact Or.inl (h.actsTime x hx2)
            · simp only [List.mem_singleton] at hx2; subst hx2
              exact Or.inr ⟨rfl, rfl, hmid⟩

theorem remove_storage_fields (s : SysState) (o : FoodOrder) :
    (remove_order_from_storage s o).orders = s.orders ∧
    (remove_order_from_storage s o).actions = s.actions ∧
    (remove_order_from_storage s o).clockIdx = s.clockIdx := by
  unfold remove_order_from_storage
  split_ifs <;> exact ⟨rfl, rfl, rfl⟩

theorem invT_pickup (c : ℕ → ℚ) (s : SysState) (oid : String)
    (hm : Mono c) (h : InvT c s) : InvT c (pickup_order c s oid).2 := by
  have hc1 : c s.clockIdx ≤ c (s.clockIdx + 1) :=
    hm s.clockIdx (s.clockIdx + 1) (Nat.le_succ _)
  unfold pickup_order sample
  dsimp only
  rcases Option.eq_none_or_eq_some (dictLookup s.orders oid) with hdl | ⟨o, hdl⟩ <;>
    rw [hdl] <;> dsimp only
  · exact ⟨fun p hp => le_trans (h.ordersTime p hp) hc1, h.ordersLoc,
      fun a ha => le_trans (h.actsTime a ha) hc1, h.actsChain⟩
  · obtain ⟨ho, ha, hk⟩ := remove_storage_fields
      ({ s with clockIdx := s.clockIdx + 1 } : SysState) o
    split_ifs with hfresh <;>
    · dsimp only [logAction]
      refine ⟨?_, ?_, ?_, ?_⟩
      · intro p hp
        rw [ho] at hp
        rw [hk]
        exact le_trans (h.ordersTime p (mem_dictErase hp)) hc1
      · intro p hp
        rw [ho] at hp
        exact h.ordersLoc p (mem_dictErase hp)
      · intro a ha2
        rw [ha] at ha2
        rw [hk]
        rcases List.mem_append.mp ha2 with ha3 | ha3
        · exact le_trans (h.actsTime a ha3) hc1
        · simp only [List.mem_singleton] at ha3; subst ha3; exact hc1
      · rw [ha]
        exact chain_snoc h.actsChain (fun x hx => Or.inl (h.actsTime x hx))

theorem invT_cleanup_cooler_loop (c : ℕ → ℚ) (t : ℚ) :
    ∀ (exp : List FoodOrder) (s : SysState),
      (∀ a ∈ s.actions, a.timestamp ≤ t) →
      List.Chain' LedgerStep s.actions →
      (∀ p ∈ s.orders, p.2.stored_at ≤ c s.clockIdx) →
      (∀ p ∈ s.orders, p.2.storage_location ≠ p.2.temperature.value) →
      (cleanup_cooler_loop t exp s).clockIdx = s.clockIdx ∧
      (∀ a ∈ (cleanup_cooler_loop t exp s).actions, a.timestamp ≤ t) ∧
      List.Chain' LedgerStep (cleanup_cooler_loop t exp s).actions ∧
      (∀ p ∈ (cleanup_cooler_loop t exp s).orders, p.2.stored_at ≤ c s.clockIdx) ∧
      (∀ p ∈ (cleanup_cooler_loop t exp s).orders,
        p.2.storage_location ≠ p.2.temperature.value) := by
  intro exp
  induction exp with
  | nil => intro s h1 h2 h3 h4; exact ⟨rfl, h1, h2, h3, h4⟩
  | cons o rest ih =>
    intro s h1 h2 h3 h4
    rw [cleanup_cooler_loop]
    dsimp only [logAction]
    refine ih _ ?_ ?_ ?_ ?_
    · intro a ha
      rcases List.mem_append.mp ha with ha2 | ha2
      · exact h1 a ha2
      · simp only [List.mem_singleton] at ha2; subst ha2; exact le_refl t
    · exact chain_snoc h2 (fun x hx => Or.inl (h1 x hx))
    · intro p hp
      exact h3 p (mem_dictErase hp)
    · intro p hp
      exact h4 p (mem_dictErase hp)

theorem invT_cleanup_heater_loop (c : ℕ → ℚ) (t : ℚ) :
    ∀ (exp : List FoodOrder) (s : SysState),
      (∀ a ∈ s.actions, a.timestamp ≤ t) →
      List.Chain' LedgerStep s.actions →
      (∀ p ∈ s.orders, p.2.stored_at ≤ c s.clockIdx) →
      (∀ p ∈ s.orders, p.2.storage_location ≠ p.2.temperature.value) →
      (cleanup_heater_loop t exp s).clockIdx = s.clockIdx ∧
      (∀ a ∈ (cleanup_heater_loop t exp s).actions, a.timestamp ≤ t) ∧
      List.Chain' LedgerStep (cleanup_heater_loop t exp s).actions ∧
      (∀ p ∈ (cleanup_heater_loop t exp s).orders, p.2.stored_at ≤ c s.clockIdx) ∧
      (∀ p ∈ (cleanup_heater_loop t exp s).orders,
        p.2.storage_location ≠ p.2.temperature.value) := by
  intro exp
  induction exp with
  | nil => intro s h1 h2 h3 h4; exact ⟨rfl, h1, h2, h3, h4⟩
  | cons o rest ih =>
    intro s h1 h2 h3 h4
    rw [cleanup_heater_loop]
    dsimp only [logAction]
    refine ih _ ?_ ?_ ?_ ?_
    · intro a ha
      rcases List.mem_append.mp ha with ha2 | ha2
      · exact h1 a ha2
      · simp only [List.mem_singleton] at ha2; subst ha2; exact le_refl t
    · exact chain_snoc h2 (fun x hx => Or.inl (h1 x hx))
    · intro p hp
      exact h3 p (mem_dictErase hp)
    · intro p hp
      exact h4 p (mem_dictErase hp)

theorem invT_cleanup_shelf_loop (c : ℕ → ℚ) (t : ℚ) :
    ∀ (exp : List FoodOrder) (s : SysState),
      (∀ a ∈ s.actions, a.timestamp ≤ t) →
      List.Chain' LedgerStep s.actions →
      (∀ p ∈ s.orders, p.2.stored_at ≤ c s.clockIdx) →
      (∀ p ∈ s.orders, p.2.storage_location ≠ p.2.temperature.value) →
      (cleanup_shelf_loop t exp s).clockIdx = s.clockIdx ∧
      (∀ a ∈ (cleanup_shelf_loop t exp s).actions, a.timestamp ≤ t) ∧
      List.Chain' LedgerStep (cleanup_shelf_loop t exp s).actions ∧
      (∀ p ∈ (cleanup_shelf_loop t exp s).orders, p.2.stored_at ≤ c s.clockIdx) ∧
      (∀ p ∈ (cleanup_shelf_loop t exp s).orders,
        p.2.storage_location ≠ p.2.temperature.value) := by
  intro exp
  induction exp with
  | nil => intro s h1 h2 h3 h4; exact ⟨rfl, h1, h2, h3, h4⟩
  | cons o rest ih =>
    intro s h1 h2 h3 h4
    rw [cleanup_shelf_loop]
    dsimp only [logAction]
    refine ih _ ?_ ?_ ?_ ?_
    · intro a ha
      rcases List.mem_append.mp ha with ha2 | ha2
      · exact h1 a ha2
      · simp only [List.mem_singleton] at ha2; subst ha2; exact le_refl t
    · exact chain_snoc h2 (fun x hx => Or.inl (h1 x hx))
    · intro p hp
      exact h3 p (mem_dictErase hp)
    · intro p hp
      exact h4 p (mem_dictErase hp)

theorem invT_cleanup (c : ℕ → ℚ) (s : SysState) (hm : Mono c)
    (h : InvT c s) : InvT c (cleanup_expired_orders c s) := by
  have hc1 : c s.clockIdx ≤ c (s.clockIdx + 1) :=
    hm s.clockIdx (s.clockIdx + 1) (Nat.le_succ _)
  unfold cleanup_expired_orders sample
  dsimp only
  obtain ⟨e1, e2, e3, e4, e5⟩ := invT_cleanup_cooler_loop c (c s.clockIdx) _
    ({ s with clockIdx := s.clockIdx + 1 } : SysState)
    (fun a ha => h.actsTime a ha) h.actsChain
    (fun p hp => le_trans (h.ordersTime p hp) hc1) h.ordersLoc
  rw [← e1] at e4
  obtain ⟨f1, f2, f3, f4, f5⟩ := invT_cleanup_heater_loop c (c s.clockIdx) _ _
    e2 e3 e4 e5
  rw [← f1] at f4
  obtain ⟨g1, g2, g3, g4, g5⟩ := invT_cleanup_shelf_loop c (c s.clockIdx) _ _
    f2 f3 f4 f5
  rw [← g1] at g4
  refine ⟨g4, g5, ?_, g3⟩
  intro a ha
  rw [g1, f1, e1]
  exact le_trans (g2 a ha) hc1

theorem invT_init (c : ℕ → ℚ) : InvT c init := by
  refine ⟨?_, ?_, ?_, ?_⟩ <;> simp [init]

theorem invT_runFrom (c : ℕ → ℚ) (hm : Mono c) :
    ∀ (evs : List Event) (s : SysState), InvT c s → InvT c (runFrom c s evs) := by
  intro evs
  induction evs with
  | nil => intro s h; exact h
  | cons e rest ih =>
    intro s h
    cases e with
    | place oid name temp fr =>
      exact ih _ (invT_place c s oid name temp fr hm h)
    | pickup oid =>
      exact ih _ (invT_pickup c s oid hm h)
    | cleanup =>
      exact ih _ (invT_cleanup c s hm h)

theorem invT_run (c : ℕ → ℚ) (evs : List Event) (hm : Mono c) :
    InvT c (run c evs) :=
  invT_runFrom c hm evs init (invT_init c)

/-- C1.  The claim says an order stored in its ideal zone (here HOT in the
heater) is fresh at `t` iff `t - stored_at < freshness_budget`.  The code
compares the location string "heater" with the temperature value string
"hot", which never match, so the ideal-zone branch is dead: at `t = 200`,
with budget 300 and age 200, the claimed condition holds and the spec model
gives 100 s of remaining life, yet `is_fresh` returns `false`. -/
theorem c1_ideal_zone_rate_is_not_one :
    hotInHeater.is_fresh 200 = false ∧
    ((200 : ℚ) - hotInHeater.stored_at < (hotInHeater.freshness : ℚ)) ∧
    spec_life_remaining hotInHeater 200 = 100 ∧ (0 : ℚ) < 100 := by
  refine ⟨by with_unfolding_all rfl, ?_, by with_unfolding_all rfl, by norm_num⟩
  show (200 : ℚ) - 0 < ((300 : Int) : ℚ)
  norm_num

/-- C2.  After the capacity discard of "r0" during the overflowing place,
the code leaves "r0" in the tracking dict, so a later pickup of "r0"
returns the discarded order and appends a PICKUP: the ledger then carries
two terminating actions (one DISCARD, one PICKUP) for the admitted id "r0",
against the claim that the pickup yields NOT_FOUND and appends nothing. -/
theorem c2_discarded_order_picked_up_again :
    ((run clock0 overflowEvents).actions[12]?).map
      (fun a => (a.action_type, a.order_id)) = some (ActionType.discard, "r0") ∧
    (pickup_order clock0 (run clock0 overflowEvents) "r0").1.isSome = true ∧
    ((pickup_order clock0 (run clock0 overflowEvents) "r0").2.actions.countP
      (fun a => a.order_id == "r0" &&
        (a.action_type == ActionType.discard || a.action_type == ActionType.pickup))) = 2 := by
  refine ⟨?_, ?_, ?_⟩ <;> with_unfolding_all rfl

/-- C4.  The claim says a move from the shelf to the ideal zone preserves
remaining life within 1 ms by resetting `stored_at` to a virtual value.  The
code's move leaves `stored_at` untouched: moving `coldOnShelf` (budget 10,
stored at 0) to the cooler at `t = 4` keeps `stored_at = 0`, and the spec
model's remaining life jumps from 2 s before the move to 6 s after it —
a 4 s change, far beyond the 1 ms tolerance. -/
theorem c4_move_does_not_preserve_remaining_life :
    (move_from_shelf_to_cooler clock4 c4Start).1 = true ∧
    ((move_from_shelf_to_cooler clock4 c4Start).2.cooler.map
      (fun o => o.stored_at)) = [0] ∧
    ((move_from_shelf_to_cooler clock4 c4Start).2.cooler.map
      (fun o => o.storage_location)) = ["cooler"] ∧
    spec_life_remaining coldOnShelf 4 = 2 ∧
    spec_life_remaining { coldOnShelf with storage_location := "cooler" } 4 = 6 ∧
    (1 : ℚ) / 1000 < 6 - 2 := by
  refine ⟨by with_unfolding_all rfl, by with_unfolding_all rfl, by with_unfolding_all rfl,
    by with_unfolding_all rfl, by with_unfolding_all rfl, by norm_num⟩

/-- C5 counterexample.  In the S4 scenario the claim expects the shelved hot
order "h7" to be MOVEd into the heater while the new order "h8" is admitted.
The code instead stores "h8" straight into the freed heater slot: the final
ledger contains no MOVE at all, "h7" is still on the shelf, and the last
entry is `PLACE h8 heater`. -/
theorem c5_s4_scenario_has_no_move :
    ((run clock0 s4Events).actions.countP
      (fun a => a.action_type == ActionType.move)) = 0 ∧
    ((run clock0 s4Events).shelf.map (fun o => o.id)) = ["h7"] ∧
    ((run clock0 s4Events).heater.map (fun o => o.id)) =
      ["h2", "h3", "h4", "h5", "h6", "h8"] ∧
    ((run clock0 s4Events).actions.getLast?).map
      (fun a => (a.action_type, a.order_id, a.target)) =
      some (ActionType.place, "h8", "heater") := by
  refine ⟨?_, ?_, ?_, ?_⟩ <;> with_unfolding_all rfl

/-- C6 counterexample.  With the strictly increasing (hence monotone) clock
`clockN`, the thirteenth place call samples its own timestamp 12 first, the
capacity DISCARD inside it is logged at the later sample 14, and the PLACE
that follows is logged at the entry timestamp 12: the ledger holds the
adjacent pair DISCARD@14, PLACE@12, so timestamps decrease and the DISCARD
entry's timestamp exceeds the following PLACE entry's timestamp. -/
theorem c6_discard_timestamp_exceeds_place :
    Mono clockN ∧
    ((run clockN overflowEvents).actions[12]?).map
      (fun a => (a.action_type, a.timestamp)) = some (ActionType.discard, (14 : ℚ)) ∧
    ((run clockN overflowEvents).actions[13]?).map
      (fun a => (a.action_type, a.timestamp)) = some (ActionType.place, (12 : ℚ)) ∧
    ¬ ((14 : ℚ) ≤ 12) := by
  refine ⟨clockN_mono, by with_unfolding_all rfl, by with_unfolding_all rfl, by norm_num⟩

/-- C7 counterexample.  `place_order` validates nothing: placing the id "a"
twice succeeds both times and yields two PLACE ledger entries for "a", and
an order with the non-positive budget −5 is admitted with a PLACE entry
instead of being rejected without a ledger entry. -/
theorem c7_malformed_input_is_admitted :
    (place_order clock0 (run clock0 [Event.place "a" "Pizza" Temperature.hot 300])
      "a" "Pizza" Temperature.hot 300).1 = true ∧
    ((place_order clock0 (run clock0 [Event.place "a" "Pizza" Temperature.hot 300])
      "a" "Pizza" Temperature.hot 300).2.actions.countP
      (fun x => x.action_type == ActionType.place && x.order_id == "a")) = 2 ∧
    (place_order clock0 init "b" "Bread" Temperature.room (-5)).1 = true ∧
    (place_order clock0 init "b" "Bread" Temperature.room (-5)).2.actions.length = 1 := by
  refine ⟨?_, ?_, ?_, ?_⟩ <;> with_unfolding_all rfl

/-- C8 counterexample.  Twelve ROOM orders fill the shelf, all placed at
time 0 under the constant clock, so by the claim every candidate scores 0
(no +500 for ROOM-ideal orders) and the tie must go to the lexicographically
lowest id "aa".  The code instead scores every shelf resident with the +500
mismatch bonus, ties on the strict comparison, and keeps the first index:
it chooses index 0, the id "zz", and the overflow discards "zz". -/
theorem c8_victim_differs_from_claim :
    (choose_order_to_discard clock0 (run clock0 c8FillEvents)).1 = some 0 ∧
    ((run clock0 c8FillEvents).shelf.map (fun o => o.id)) =
      ["zz", "aa", "m0", "m1", "m2", "m3", "m4", "m5", "m6", "m7", "m8", "m9"] ∧
    ((run clock0 c8FillEvents).shelf.map
      (fun o => claim_discard_score o (clock0 (run clock0 c8FillEvents).clockIdx))) =
      List.replicate 12 0 ∧
    ("aa" : String).data < ("zz" : String).data ∧
    ((run clock0 (c8FillEvents ++ [Event.place "nn" "R" Temperature.room 300])).actions.filterMap
      (fun a => if a.action_type == ActionType.discard then some a.order_id else none)) =
      ["zz"] := by
  refine ⟨?_, ?_, ?_, by decide, ?_⟩ <;> with_unfolding_all rfl

/-- C10.  A pickup of an id that is absent from the tracking dict returns
`none` and leaves every observable component of the state unchanged: all
three zones, the dict, the ledger and all four statistics counters. -/
theorem c10_unknown_pickup_changes_nothing (c : ℕ → ℚ) (s : SysState)
    (oid : String) (h : dictLookup s.orders oid = none) :
    (pickup_order c s oid).1 = none ∧
    (pickup_order c s oid).2.cooler = s.cooler ∧
    (pickup_order c s oid).2.heater = s.heater ∧
    (pickup_order c s oid).2.shelf = s.shelf ∧
    (pickup_order c s oid).2.orders = s.orders ∧
    (pickup_order c s oid).2.actions = s.actions ∧
    (pickup_order c s oid).2.statsPlaced = s.statsPlaced ∧
    (pickup_order c s oid).2.statsPickedUp = s.statsPickedUp ∧
    (pickup_order c s oid).2.statsDiscarded = s.statsDiscarded ∧
    (pickup_order c s oid).2.statsMoved = s.statsMoved := by
  unfold pickup_order sample
  simp only [h]
  simp

/-- C10 witness: pickup of "ghost" on the empty initial state. -/
theorem c10_unknown_pickup_witness :
    (pickup_order clock0 init "ghost").1 = none ∧
    (pickup_order clock0 init "ghost").2.cooler = init.cooler ∧
    (pickup_order clock0 init "ghost").2.heater = init.heater ∧
    (pickup_order clock0 init "ghost").2.shelf = init.shelf ∧
    (pickup_order clock0 init "ghost").2.orders = init.orders ∧
    (pickup_order clock0 init "ghost").2.actions = init.actions ∧
    (pickup_order clock0 init "ghost").2.statsPlaced = init.statsPlaced ∧
    (pickup_order clock0 init "ghost").2.statsPickedUp = init.statsPickedUp ∧
    (pickup_order clock0 init "ghost").2.statsDiscarded = init.statsDiscarded ∧
    (pickup_order clock0 init "ghost").2.statsMoved = init.statsMoved :=
  c10_unknown_pickup_changes_nothing clock0 init "ghost" rfl

/-- C3.  In every execution whose placed ids are pairwise distinct (the
spec's data model makes ids globally unique within a run), every reachable
state keeps the cooler and heater at or below six orders, the shelf at or
below twelve, and no order id is present in two zones at once.  Every ledger
prefix is `run c evs` for a prefix `evs` of the call sequence, so this
covers every observable moment. -/
theorem c3_capacity_and_unique_residency (c : ℕ → ℚ) (evs : List Event)
    (hids : (placedIds evs).Nodup) :
    (run c evs).cooler.length ≤ 6 ∧
    (run c evs).heater.length ≤ 6 ∧
    (run c evs).shelf.length ≤ 12 ∧
    ((run c evs).cooler.map (fun o => o.id)).Disjoint
      ((run c evs).heater.map (fun o => o.id)) ∧
    ((run c evs).cooler.map (fun o => o.id)).Disjoint
      ((run c evs).shelf.map (fun o => o.id)) ∧
    ((run c evs).heater.map (fun o => o.id)).Disjoint
      ((run c evs).shelf.map (fun o => o.id)) := by
  have hI := invI_run c evs hids
  have hnd := hI.nodup
  unfold zoneIds at hnd
  rw [List.map_append, List.map_append, List.nodup_append] at hnd
  obtain ⟨h12, _, hdisj⟩ := hnd
  rw [List.nodup_append] at h12
  obtain ⟨_, _, hCH⟩ := h12
  rw [List.disjoint_append_left] at hdisj
  exact ⟨hI.coolerCap, hI.heaterCap, hI.shelfCap, hCH, hdisj.1, hdisj.2⟩

/-- C3 witness: the S4 execution, whose nine calls place eight distinct ids. -/
theorem c3_capacity_witness :
    (run clock0 s4Events).cooler.length ≤ 6 ∧
    (run clock0 s4Events).heater.length ≤ 6 ∧
    (run clock0 s4Events).shelf.length ≤ 12 ∧
    ((run clock0 s4Events).cooler.map (fun o => o.id)).Disjoint
      ((run clock0 s4Events).heater.map (fun o => o.id)) ∧
    ((run clock0 s4Events).cooler.map (fun o => o.id)).Disjoint
      ((run clock0 s4Events).shelf.map (fun o => o.id)) ∧
    ((run clock0 s4Events).heater.map (fun o => o.id)).Disjoint
      ((run clock0 s4Events).shelf.map (fun o => o.id)) :=
  c3_capacity_and_unique_residency clock0 s4Events (by decide)

/-- C5 amended.  No execution of the system ever logs a MOVE action: the
shelf-relocation branches of `try_make_room_and_place` demand free space in
the arriving order's ideal zone, yet they run only after the fast path found
that zone full, so they are unreachable and `place_order` stores a new hot
order directly in the heater whenever the heater has room (as in S4). -/
theorem c5_no_move_is_ever_logged (c : ℕ → ℚ) (evs : List Event) :
    ((run c evs).actions.countP
      (fun a => a.action_type == ActionType.move)) = 0 := by
  rw [show run c evs = runFrom c init evs from rfl, runFrom_countP_move]
  rfl

/-- C7 amended.  `place_order` validates nothing: for arbitrary inputs —
including an id that is already admitted and a non-positive freshness
budget — the call succeeds and appends a PLACE entry whenever the shelf has
a free slot, rather than rejecting with no ledger entry. -/
theorem c7_place_admits_any_input (c : ℕ → ℚ) (s : SysState)
    (oid name : String) (temp : Temperature) (fr : Int)
    (h : s.shelf.length < 12) :
    (place_order c s oid name temp fr).1 = true ∧
    ∃ a, (place_order c s oid name temp fr).2.actions = s.actions ++ [a] ∧
      a.action_type = ActionType.place ∧ a.order_id = oid := by
  unfold place_order sample
  dsimp only
  rcases try_store_cases { s with clockIdx := s.clockIdx + 1 }
      { id := oid, name := name, temperature := temp, freshness := fr,
        placed_at := c s.clockIdx, stored_at := c s.clockIdx,
        storage_location := "" } with
    ⟨ht, hlen, heq⟩ | ⟨ht, hlen, heq⟩ | ⟨ht, hlen, heq⟩ | ⟨hg1, hg2, hg3, heq⟩
  · rw [heq]; dsimp only [logAction]
    exact ⟨rfl, _, rfl, rfl, rfl⟩
  · rw [heq]; dsimp only [logAction]
    exact ⟨rfl, _, rfl, rfl, rfl⟩
  · rw [heq]; dsimp only [logAction]
    exact ⟨rfl, _, rfl, rfl, rfl⟩
  · rw [heq]; dsimp only
    rw [make_room_of_full c _ _ hg1 hg2, if_pos (show _ < 12 from h)]
    dsimp only [logAction]
    exact ⟨rfl, _, rfl, rfl, rfl⟩

/-- C6 amended.  Under any monotone clock, consecutive ledger entries have
non-decreasing timestamps except when a capacity DISCARD is immediately
followed by the PLACE of the same `place_order` call; there the PLACE
carries the call-entry timestamp, which is at most the DISCARD's. -/
theorem c6_ledger_chain_amended (c : ℕ → ℚ) (evs : List Event) (hm : Mono c) :
    List.Chain' LedgerStep (run c evs).actions :=
  (invT_run c evs hm).actsChain

/-- C6 amended witness: the overflow execution under the strictly increasing
clock, the very trace on which plain monotonicity fails. -/
theorem c6_ledger_chain_witness :
    List.Chain' LedgerStep (run clockN overflowEvents).actions :=
  c6_ledger_chain_amended clockN overflowEvents clockN_mono

theorem pickup_no_expired_aux (c : ℕ → ℚ) (s : SysState) (oid : String)
    (hT : InvT c s) :
    (∀ a : KitchenAction,
        (pickup_order c s oid).2.actions = s.actions ++ [a] →
        a.action_type = ActionType.pickup →
        ∃ o, dictLookup s.orders oid = some o ∧
          0 < spec_life_remaining o a.timestamp) ∧
    (∀ o, dictLookup s.orders oid = some o →
        spec_life_remaining o (c s.clockIdx) ≤ 0 →
        (pickup_order c s oid).1 = none ∧
        ∃ a, (pickup_order c s oid).2.actions = s.actions ++ [a] ∧
          a.action_type = ActionType.discard) := by
  unfold pickup_order sample
  dsimp only
  rcases Option.eq_none_or_eq_some (dictLookup s.orders oid) with hdl | ⟨o, hdl⟩ <;>
    rw [hdl] <;> dsimp only
  · constructor
    · intro a ha _
      exfalso
      have hlen := congrArg List.length ha
      simp at hlen
    · intro o2 ho2 _
      simp at ho2
  · have hmem := dictLookup_mem hdl
    have hloc : o.storage_location ≠ o.temperature.value := hT.ordersLoc (oid, o) hmem
    have hst : o.stored_at ≤ c s.clockIdx := hT.ordersTime (oid, o) hmem
    have hage : 0 ≤ c s.clockIdx - o.stored_at := by linarith
    have hfr_iff : o.is_fresh (c s.clockIdx) = true ↔
        c s.clockIdx - o.stored_at < (o.freshness : ℚ) / 2 := by
      unfold FoodOrder.is_fresh
      dsimp only
      rw [if_neg hloc]
      simp only [decide_eq_true_eq]
    obtain ⟨hro, hra, hrk⟩ := remove_storage_fields
      ({ s with clockIdx := s.clockIdx + 1 } : SysState) o
    split_ifs with hf <;> dsimp only [logAction]
    · constructor
      · intro a ha _
        rw [hra] at ha
        have h2 := List.append_cancel_left ha
        simp only [List.cons.injEq, and_true] at h2
        subst h2
        refine ⟨o, rfl, ?_⟩
        have harith := hfr_iff.mp hf
        unfold spec_life_remaining
        dsimp only
        split_ifs with hiz
        · linarith
        · linarith
      · intro o2 ho2 hle
        obtain rfl := Option.some_inj.mp ho2
        exfalso
        have harith := hfr_iff.mp hf
        unfold spec_life_remaining at hle
        dsimp only at hle
        split_ifs at hle with hiz
        · linarith
        · linarith
    · constructor
      · intro a ha htype
        rw [hra] at ha
        have h2 := List.append_cancel_left ha
        simp only [List.cons.injEq, and_true] at h2
        subst h2
        exact absurd htype (by simp)
      · intro o2 ho2 _
        obtain rfl := Option.some_inj.mp ho2
        refine ⟨rfl, ?_⟩
        exact ⟨_, by rw [hra], rfl⟩

/-- C9.  In every execution under a monotone clock, if a pickup call appends
a PICKUP entry, the delivered order's remaining life per the spec's
freshness model at the entry's timestamp is strictly positive; and whenever
the tracked order's spec-model remaining life at the call's timestamp is not
positive, the call returns NOT_FOUND and appends a DISCARD instead. -/
theorem c9_no_pickup_of_expired_order (c : ℕ → ℚ) (evs : List Event)
    (oid : String) (hm : Mono c) :
    (∀ a : KitchenAction,
        (pickup_order c (run c evs) oid).2.actions =
          (run c evs).actions ++ [a] →
        a.action_type = ActionType.pickup →
        ∃ o, dictLookup (run c evs).orders oid = some o ∧
          0 < spec_life_remaining o a.timestamp) ∧
    (∀ o, dictLookup (run c evs).orders oid = some o →
        spec_life_remaining o (c (run c evs).clockIdx) ≤ 0 →
        (pickup_order c (run c evs) oid).1 = none ∧
        ∃ a, (pickup_order c (run c evs) oid).2.actions =
          (run c evs).actions ++ [a] ∧ a.action_type = ActionType.discard) :=
  pickup_no_expired_aux c (run c evs) oid (invT_run c evs hm)

/-- C9 witness: the pickup of the single hot order "o1" at time 0 logs a
PICKUP, and its spec-model remaining life at that timestamp is positive. -/
theorem c9_no_pickup_of_expired_witness :
    ∃ o, dictLookup
        (run clock0 [Event.place "o1" "Pizza" Temperature.hot 300]).orders
        "o1" = some o ∧
      0 < spec_life_remaining o
        (({ timestamp := 0, order_id := "o1",
            action_type := ActionType.pickup, target := "heater",
            details := "Picked up Pizza" } : KitchenAction)).timestamp :=
  (c9_no_pickup_of_expired_order clock0
      [Event.place "o1" "Pizza" Temperature.hot 300] "o1" clock0_mono).1
    { timestamp := 0, order_id := "o1", action_type := ActionType.pickup,
      target := "heater", details := "Picked up Pizza" }
    (by with_unfolding_all rfl) rfl

theorem discard_score_eq_shelf_score {o : FoodOrder} (t : ℚ)
    (hol : o.storage_location = "shelf") :
    discard_score o t = shelf_score o t := by
  unfold discard_score shelf_score
  dsimp only
  rw [hol, if_neg (shelf_ne_value o.temperature),
    if_neg (shelf_ne_value o.temperature)]

theorem choose_loop_spec (t : ℚ) :
    ∀ (l : List FoodOrder) (k bi : ℕ) (bs : Int),
      ∃ ri rs, choose_loop t l k (some (bi, bs)) = some (ri, rs) ∧ bs ≤ rs ∧
        (∀ (j : ℕ) (o : FoodOrder), l[j]? = some o → discard_score o t ≤ rs) ∧
        ((ri = bi ∧ rs = bs) ∨
          (k ≤ ri ∧ bs < rs ∧
            (∃ o, l[ri - k]? = some o ∧ discard_score o t = rs) ∧
            ∀ (j : ℕ) (o2 : FoodOrder), k + j < ri → l[j]? = some o2 → discard_score o2 t < rs)) := by
  intro l
  induction l with
  | nil =>
    intro k bi bs
    refine ⟨bi, bs, rfl, le_refl bs, ?_, Or.inl ⟨rfl, rfl⟩⟩
    intro j o h
    simp at h
  | cons o rest ih =>
    intro k bi bs
    have hstep : choose_loop t (o :: rest) k (some (bi, bs)) =
        choose_loop t rest (k + 1)
          (if bs < discard_score o t then some (k, discard_score o t)
            else some (bi, bs)) := rfl
    by_cases hlt : bs < discard_score o t
    · rw [if_pos hlt] at hstep
      obtain ⟨ri, rs, heq, hle, hmax, hcase⟩ := ih (k + 1) k (discard_score o t)
      refine ⟨ri, rs, hstep.trans heq, le_trans (le_of_lt hlt) hle, ?_, ?_⟩
      · intro j o2 hj
        cases j with
        | zero =>
          rw [List.getElem?_cons_zero] at hj
          obtain rfl := Option.some_inj.mp hj
          exact hle
        | succ m =>
          rw [List.getElem?_cons_succ] at hj
          exact hmax m o2 hj
      · rcases hcase with ⟨hri, hrs⟩ | ⟨hk1, hblt, ⟨o3, hget3, hsc3⟩, hstrict⟩
        · subst hri; subst hrs
          refine Or.inr ⟨le_refl _, hlt, ⟨o, ?_, rfl⟩, ?_⟩
          · rw [Nat.sub_self, List.getElem?_cons_zero]
          · intro j o2 hj _
            omega
        · refine Or.inr ⟨le_trans (Nat.le_succ k) hk1, lt_trans hlt hblt, ?_, ?_⟩
          · refine ⟨o3, ?_, hsc3⟩
            have hidx : ri - k = (ri - (k + 1)) + 1 := by omega
            rw [hidx, List.getElem?_cons_succ]
            exact hget3
          · intro j o2 hj hget
            cases j with
            | zero =>
              rw [List.getElem?_cons_zero] at hget
              obtain rfl := Option.some_inj.mp hget
              exact hblt
            | succ m =>
              rw [List.getElem?_cons_succ] at hget
              exact hstrict m o2 (by omega) hget
    · rw [if_neg hlt] at hstep
      have hso : discard_score o t ≤ bs := le_of_not_lt hlt
      obtain ⟨ri, rs, heq, hle, hmax, hcase⟩ := ih (k + 1) bi bs
      refine ⟨ri, rs, hstep.trans heq, hle, ?_, ?_⟩
      · intro j o2 hj
        cases j with
        | zero =>
          rw [List.getElem?_cons_zero] at hj
          obtain rfl := Option.some_inj.mp hj
          exact le_trans hso hle
        | succ m =>
          rw [List.getElem?_cons_succ] at hj
          exact hmax m o2 hj
      · rcases hcase with hsame | ⟨hk1, hblt, ⟨o3, hget3, hsc3⟩, hstrict⟩
        · exact Or.inl hsame
        · refine Or.inr ⟨le_trans (Nat.le_succ k) hk1, hblt, ?_, ?_⟩
          · refine ⟨o3, ?_, hsc3⟩
            have hidx : ri - k = (ri - (k + 1)) + 1 := by omega
            rw [hidx, List.getElem?_cons_succ]
            exact hget3
          · intro j o2 hj hget
            cases j with
            | zero =>
              rw [List.getElem?_cons_zero] at hget
              obtain rfl := Option.some_inj.mp hget
              exact lt_of_le_of_lt hso hblt
            | succ m =>
              rw [List.getElem?_cons_succ] at hget
              exact hstrict m o2 (by omega) hget

theorem choose_first_max (c : ℕ → ℚ) (s : SysState)
    (hsh : ∀ o ∈ s.shelf, o.storage_location = "shelf") :
    ∀ i, (choose_order_to_discard c s).1 = some i →
      ∃ oi, s.shelf[i]? = some oi ∧
        (∀ (j : ℕ) (oj : FoodOrder), s.shelf[j]? = some oj →
          shelf_score oj (c s.clockIdx) ≤ shelf_score oi (c s.clockIdx)) ∧
        (∀ (j : ℕ) (oj : FoodOrder), j < i → s.shelf[j]? = some oj →
          shelf_score oj (c s.clockIdx) < shelf_score oi (c s.clockIdx)) := by
  unfold choose_order_to_discard sample
  dsimp only
  intro i hi
  rcases hsh0 : s.shelf with _ | ⟨o, rest⟩
  · rw [hsh0] at hi
    simp [choose_loop] at hi
  · rw [hsh0] at hi
    have hconv2 : ∀ (j : ℕ) (oj : FoodOrder), (o :: rest)[j]? = some oj →
        discard_score oj (c s.clockIdx) = shelf_score oj (c s.clockIdx) := by
      intro j oj hj
      refine discard_score_eq_shelf_score _ (hsh oj ?_)
      rw [hsh0]
      exact List.getElem?_mem hj
    have hstep : choose_loop (c s.clockIdx) (o :: rest) 0 none =
        choose_loop (c s.clockIdx) rest 1
          (some (0, discard_score o (c s.clockIdx))) := rfl
    rw [hstep] at hi
    obtain ⟨ri, rs, heq, hle, hmax, hcase⟩ :=
      choose_loop_spec (c s.clockIdx) rest 1 0 (discard_score o (c s.clockIdx))
    rw [heq] at hi
    have hsome : some ri = some i := hi
    have hri_eq : ri = i := Option.some_inj.mp hsome
    subst hri_eq
    rcases hcase with ⟨hri, hrs⟩ | ⟨hk1, hblt, ⟨o3, hget3, hsc3⟩, hstrict⟩
    · subst hri
      subst hrs
      refine ⟨o, by rw [List.getElem?_cons_zero], ?_, ?_⟩
      · intro j oj hj
        rw [← hconv2 j oj hj, ← hconv2 0 o (by rw [List.getElem?_cons_zero])]
        cases j with
        | zero =>
          rw [List.getElem?_cons_zero] at hj
          obtain rfl := Option.some_inj.mp hj
          exact le_refl _
        | succ m =>
          rw [List.getElem?_cons_succ] at hj
          exact hmax m oj hj
      · intro j oj hjlt hj
        exact absurd hjlt (Nat.not_lt_zero j)
    · have hoi : (o :: rest)[ri]? = some o3 := by
        rw [show (ri : ℕ) = (ri - 1) + 1 from by omega, List.getElem?_cons_succ]
        exact hget3
      refine ⟨o3, hoi, ?_, ?_⟩
      · intro j oj hj
        rw [← hconv2 j oj hj, ← hconv2 ri o3 hoi, hsc3]
        cases j with
        | zero =>
          rw [List.getElem?_cons_zero] at hj
          obtain rfl := Option.some_inj.mp hj
          exact le_of_lt hblt
        | succ m =>
          rw [List.getElem?_cons_succ] at hj
          exact hmax m oj hj
      · intro j oj hjlt hj
        rw [← hconv2 j oj hj, ← hconv2 ri o3 hoi, hsc3]
        cases j with
        | zero =>
          rw [List.getElem?_cons_zero] at hj
          obtain rfl := Option.some_inj.mp hj
          exact hblt
        | succ m =>
          rw [List.getElem?_cons_succ] at hj
          exact hstrict m oj (by omega) hj

/-- C8 amended.  When the shelf is scanned for a victim, every candidate's
location string is "shelf", which never equals a temperature value string,
so every candidate — ROOM-ideal ones included — receives the +500 mismatch
bonus and ages at the doubled rate (`shelf_score`); the chosen index carries
a maximal `shelf_score`, and every strictly earlier shelf index scores
strictly less, i.e. ties go to the lowest index, not to the
lexicographically lower id. -/
theorem c8_victim_is_first_shelf_score_max (c : ℕ → ℚ) (s : SysState)
    (hsh : ∀ o ∈ s.shelf, o.storage_location = "shelf") (i : ℕ)
    (hch : (choose_order_to_discard c s).1 = some i) :
    ∃ oi, s.shelf[i]? = some oi ∧
      (∀ (j : ℕ) (oj : FoodOrder), s.shelf[j]? = some oj →
        shelf_score oj (c s.clockIdx) ≤ shelf_score oi (c s.clockIdx)) ∧
      (∀ (j : ℕ) (oj : FoodOrder), j < i → s.shelf[j]? = some oj →
        shelf_score oj (c s.clockIdx) < shelf_score oi (c s.clockIdx)) :=
  choose_first_max c s hsh i hch

/-- C8 amended witness: a two-order shelf where the code's scan keeps
index 0. -/
theorem c8_victim_first_max_witness :
    ∃ oi, ({ init with shelf :=
        [{ id := "zz", name := "R", temperature := Temperature.room,
           freshness := 300, placed_at := 0, stored_at := 0,
           storage_location := "shelf" },
         { id := "aa", name := "R", temperature := Temperature.room,
           freshness := 300, placed_at := 0, stored_at := 0,
           storage_location := "shelf" }] } : SysState).shelf[0]? = some oi ∧
      (∀ (j : ℕ) (oj : FoodOrder), ({ init with shelf :=
        [{ id := "zz", name := "R", temperature := Temperature.room,
           freshness := 300, placed_at := 0, stored_at := 0,
           storage_location := "shelf" },
         { id := "aa", name := "R", temperature := Temperature.room,
           freshness := 300, placed_at := 0, stored_at := 0,
           storage_location := "shelf" }] } : SysState).shelf[j]? = some oj →
        shelf_score oj (clock0 0) ≤ shelf_score oi (clock0 0)) ∧
      (∀ (j : ℕ) (oj : FoodOrder), j < 0 → ({ init with shelf :=
        [{ id := "zz", name := "R", temperature := Temperature.room,
           freshness := 300, placed_at := 0, stored_at := 0,
           storage_location := "shelf" },
         { id := "aa", name := "R", temperature := Temperature.room,
           freshness := 300, placed_at := 0, stored_at := 0,
           storage_location := "shelf" }] } : SysState).shelf[j]? = some oj →
        shelf_score oj (clock0 0) < shelf_score oi (clock0 0)) :=
  c8_victim_is_first_shelf_score_max clock0 _ (by decide) 0
    (by with_unfolding_all rfl)

/-- C7 amended witness: a non-positive budget is admitted into the empty
system with a PLACE entry. -/
theorem c7_place_admits_any_input_witness :
    (place_order clock0 init "b" "Bad" Temperature.hot (-5)).1 = true ∧
    ∃ a, (place_order clock0 init "b" "Bad" Temperature.hot (-5)).2.actions =
      init.actions ++ [a] ∧
      a.action_type = ActionType.place ∧ a.order_id = "b" :=
  c7_place_admits_any_input clock0 init "b" "Bad" Temperature.hot (-5) (by decide)

end Kitchen
